import Mathlib

/-!
Verification of the Console-Chess engine (files `base.py`, `figures.py`).

The embedding models the engine state as a `World`: a table (grid of cells
holding figure identifiers), a list of figure objects (kind, owner, lazy
position cache, lazy legal-move cache, pawn first-move flag) and a list of
players (orientation, lazy figure-list cache).  Python object identity is
modelled by indices (`FigId`, `PlayerId`).  Python integers are `Int`;
Python list indexing (with its negative-index wrap-around) is `pyGet` /
`pySet`.  Operations that can raise are state-passing functions returning
`Except Err _ × World`: an exception carries the world as mutated so far,
exactly as in Python.
-/

namespace ConsoleChess

/-- Board coordinates: a Python `(row, column)` pair of ints. -/
abbrev Pos := Int × Int

/-- Identity of a `Figure` object. -/
abbrev FigId := Nat

/-- Identity of a `Player` object. -/
abbrev PlayerId := Nat

/-- The six figure classes of `figures.py`. -/
inductive FigKind where
  | pawn | rook | bishop | queen | knight | king
  deriving DecidableEq

/-- Exceptions of the engine: `InvalidMove`, `MissingFigure`, `AccessError`
from `base.py`; `indexError` models Python's built-in `IndexError` from raw
list indexing; `recursionError` models `RecursionError`; `badId` marks
dereferencing an identifier that denotes no object (unreachable for states
that arise from real Python objects). -/
inductive Err where
  | invalidMove | missingFigure | accessError | indexError | recursionError | badId
  deriving DecidableEq

instance [DecidableEq ε] [DecidableEq α] : DecidableEq (Except ε α) := fun a b =>
  match a, b with
  | .error e, .error f =>
    if h : e = f then .isTrue (by rw [h]) else .isFalse (fun hc => h (Except.error.inj hc))
  | .ok x, .ok y =>
    if h : x = y then .isTrue (by rw [h]) else .isFalse (fun hc => h (Except.ok.inj hc))
  | .error _, .ok _ => .isFalse (fun hc => Except.noConfusion hc)
  | .ok _, .error _ => .isFalse (fun hc => Except.noConfusion hc)

/-- Python list read `l[i]`: negative indices wrap from the end; an index out
of range is an `IndexError` (`none`). -/
def pyGet (l : List α) (i : Int) : Option α :=
  if 0 ≤ i then l[i.toNat]?
  else if (-i).toNat ≤ l.length then l[l.length - (-i).toNat]? else none

/-- Python list write `l[i] = a`, with the same index resolution as `pyGet`. -/
def pySet (l : List α) (i : Int) (a : α) : Option (List α) :=
  if 0 ≤ i then
    if i.toNat < l.length then some (l.set i.toNat a) else none
  else if (-i).toNat ≤ l.length then some (l.set (l.length - (-i).toNat) a) else none

/-- State of a `Table` object (base.py 17-61): the stored `rows` / `columns`
attributes, the grid of cells, and the lazy `_figures` cache. -/
structure TableData where
  rows : Nat
  columns : Nat
  cells : List (List (Option FigId))
  figCache : Option (List FigId)
  deriving DecidableEq

/-- Table.__init__ (base.py 18-24).  The source builds
`[[None for column in range(self.rows)] for row in range(self.columns)]`:
the outer list ranges over `columns` and the inner over `rows`, so the grid
has `columns` rows of `rows` cells each. -/
def TableData.init (rows columns : Nat) : TableData :=
  { rows := rows
    columns := columns
    cells := List.replicate columns (List.replicate rows none)
    figCache := none }

/-- Table.get_figure (base.py 38-40): `self[p0][p1]`.  Outer `none` is an
`IndexError`; `some c` returns the cell content. -/
def TableData.get_figure (t : TableData) (p : Pos) : Option (Option FigId) :=
  match pyGet t.cells p.1 with
  | none => none
  | some row => pyGet row p.2

/-- Table.set_figure (base.py 42-44): `self[p0][p1] = figure`. -/
def TableData.set_figure (t : TableData) (f : Option FigId) (p : Pos) : Option TableData :=
  match pyGet t.cells p.1 with
  | none => none
  | some row =>
    match pySet row p.2 f with
    | none => none
    | some row2 =>
      match pySet t.cells p.1 row2 with
      | none => none
      | some cells2 => some { t with cells := cells2 }

/-- Index of the first cell of a row that holds the given figure (the inner
loop of Table.get_figure_position, base.py 32-35). -/
def rowFind (fid : FigId) : List (Option FigId) → Option Nat
  | [] => none
  | c :: rest => if c = some fid then some 0 else (rowFind fid rest).map (· + 1)

/-- Row-major scan for the first cell holding the given figure (the outer
loop of Table.get_figure_position, base.py 32-35). -/
def gridFind (fid : FigId) : List (List (Option FigId)) → Option (Nat × Nat)
  | [] => none
  | row :: rest =>
    match rowFind fid row with
    | some j => some (0, j)
    | none => (gridFind fid rest).map (fun ij => (ij.1 + 1, ij.2))

/-- Table.get_figure_position (base.py 30-36) as a value: the scanned
position of the figure, `none` meaning the `MissingFigure` exception. -/
def computePosition (t : TableData) (fid : FigId) : Option Pos :=
  (gridFind fid t.cells).map (fun ij => ((ij.1 : Int), (ij.2 : Int)))

/-- Table.figures without the cache (base.py 46-51): every occupied cell's
figure in row-major scan order. -/
def tableFiguresList (t : TableData) : List FigId :=
  t.cells.flatMap (fun row => row.filterMap (fun c => c))

/-- State of a `Figure` object (base.py 110-164): class tag, owning player,
lazy `_position` and `_available_moves` caches and (used by Pawn only) the
`first_move` flag. -/
structure FigureData where
  kind : FigKind
  player : PlayerId
  posCache : Option Pos
  movesCache : Option (Finset Pos)
  first_move : Bool
  deriving DecidableEq

/-- State of a `Player` object (base.py 64-107): orientation and the lazy
`_figures` cache. -/
structure PlayerData where
  goes_up : Bool
  figCache : Option (List FigId)
  deriving DecidableEq

/-- The whole mutable state of the engine. -/
structure World where
  table : TableData
  figures : List FigureData
  players : List PlayerData
  deriving DecidableEq

/-- Update one figure object in place (identity `i`); no-op when `i` denotes
no object. -/
def World.updFig (w : World) (i : FigId) (g : FigureData → FigureData) : World :=
  match w.figures[i]? with
  | none => w
  | some f => { w with figures := w.figures.set i (g f) }

/-- Owner of a figure, with a default for dangling identifiers (a real
Python attribute read cannot fail). -/
def World.ownerOfD (w : World) (i : FigId) : PlayerId :=
  ((w.figures[i]?).map (·.player)).getD 0

/-- Kind tag of a figure. -/
def World.kindOf (w : World) (i : FigId) : Option FigKind :=
  (w.figures[i]?).map (·.kind)

/-- Orientation of a player (`player.goes_up`), with a default for dangling
identifiers. -/
def World.goesUpOf (w : World) (p : PlayerId) : Bool :=
  ((w.players[p]?).map (·.goes_up)).getD true

/-- Player.reset (base.py 104-107): clear the player's `_figures` cache and
the table's cache. -/
def World.resetPlayer (w : World) (p : PlayerId) : World :=
  let w1 :=
    match w.players[p]? with
    | none => w
    | some pl => { w with players := w.players.set p { pl with figCache := none } }
  { w1 with table := { w1.table with figCache := none } }

/-- Figure.position property read (base.py 128-133): return the cached
position, else scan the table and memoise the result; `MissingFigure` when
the figure is not on the table. -/
def figPosS (w : World) (i : FigId) : Except Err Pos × World :=
  match w.figures[i]? with
  | none => (.error .badId, w)
  | some f =>
    match f.posCache with
    | some p => (.ok p, w)
    | none =>
      match computePosition w.table i with
      | none => (.error .missingFigure, w)
      | some p => (.ok p, w.updFig i (fun g => { g with posCache := some p }))

/-- Table.figures property read (base.py 46-51): cached, else row-major
scan, memoised. -/
def tableFiguresS (w : World) : List FigId × World :=
  match w.table.figCache with
  | some l => (l, w)
  | none =>
    let l := tableFiguresList w.table
    (l, { w with table := { w.table with figCache := some l } })

/-- Read `i.position` for every figure of the list in order, threading the
cache fills (the `i.position` reads inside `cut_before` / `cut_after` /
`Knight._validate_moves` / the pawn block loop). -/
def positionsS (w : World) (l : List FigId) : Except Err (List Pos) × World :=
  match l with
  | [] => (.ok [], w)
  | i :: rest =>
    match figPosS w i with
    | (.error e, w1) => (.error e, w1)
    | (.ok p, w1) =>
      match positionsS w1 rest with
      | (.error e, w2) => (.error e, w2)
      | (.ok ps, w2) => (.ok (p :: ps), w2)

/-- Python `f.index(q)` wrapped in try/except ValueError (figures.py 19-22,
33-36): index of the first occurrence, `none` when absent. -/
def posIndex (q : Pos) : List Pos → Option Nat
  | [] => none
  | x :: rest => if x = q then some 0 else (posIndex q rest).map (· + 1)

/-- figures.cut_before (figures.py 17-28).  `t` carries each figure's
position and owner; a friendly blocker keeps `f[s+1:]`, an opponent keeps
`f[s:]`. -/
def cut_before (f : List Pos) (t : List (Pos × PlayerId)) (p : PlayerId) : List Pos :=
  match t with
  | [] => f
  | x :: rest =>
    cut_before
      (match posIndex x.1 f with
       | none => f
       | some s => if p = x.2 then f.drop (s + 1) else f.drop s)
      rest p

/-- figures.cut_after (figures.py 31-42): a friendly blocker keeps `f[:s]`,
an opponent keeps `f[:s+1]`. -/
def cut_after (f : List Pos) (t : List (Pos × PlayerId)) (p : PlayerId) : List Pos :=
  match t with
  | [] => f
  | x :: rest =>
    cut_after
      (match posIndex x.1 f with
       | none => f
       | some s => if p = x.2 then f.take s else f.take (s + 1))
      rest p

/-- Python `range(a, b)` over ints. -/
def intRange (a b : Int) : List Int :=
  (List.range (b - a).toNat).map (fun k => a + k)

/-- Rook._straight_moves (figures.py 93-106): the four axis rays, each cut
against the figures on the table. -/
def straight_moves (pos : Pos) (rows columns : Int) (tps : List (Pos × PlayerId))
    (p : PlayerId) : List Pos × List Pos × List Pos × List Pos :=
  let up := cut_before ((intRange 0 pos.1).map (fun r => (r, pos.2))) tps p
  let down := cut_after ((intRange (pos.1 + 1) rows).map (fun r => (r, pos.2))) tps p
  let left := cut_before ((intRange 0 pos.2).map (fun c => (pos.1, c))) tps p
  let right := cut_after ((intRange (pos.2 + 1) columns).map (fun c => (pos.1, c))) tps p
  (up, down, left, right)

/-- Bishop._oblique_moves (figures.py 117-145): the four diagonal rays.
Each source `while` loop appends `(r ∓ n, c ∓ n)` for `n = 1, 2, ...` while
its bound holds; the loop running exactly `max 0 k` times is rendered as a
map over `List.range k.toNat`.  The bounds: `min (r-n) (c-n) ≥ 0` gives
`k = min r c`; `r+n < rows ∧ c-n ≥ 0` gives `k = min (rows-r-1) c`;
`r-n ≥ 0 ∧ c+n < columns` gives `k = min r (columns-c-1)`;
`max (r+n) (c+n) < min rows columns` gives `k = min rows columns - max r c - 1`. -/
def oblique_moves (pos : Pos) (rows columns : Int) (tps : List (Pos × PlayerId))
    (p : PlayerId) : List Pos × List Pos × List Pos × List Pos :=
  let r := pos.1
  let c := pos.2
  let left_up := cut_after
    ((List.range (min r c).toNat).map (fun k => (r - (k + 1), c - (k + 1)))) tps p
  let left_down := cut_after
    ((List.range (min (rows - r - 1) c).toNat).map (fun k => (r + (k + 1), c - (k + 1)))) tps p
  let right_up := cut_after
    ((List.range (min r (columns - c - 1)).toNat).map (fun k => (r - (k + 1), c + (k + 1)))) tps p
  let right_down := cut_after
    ((List.range (min rows columns - max r c - 1).toNat).map
      (fun k => (r + (k + 1), c + (k + 1)))) tps p
  (left_up, left_down, right_up, right_down)

/-- Common prefix of every `available_moves` computation: read
`self.position`, `self.table.figures`, and the position and owner of every
figure on the table (all memoised reads; the source performs the position
reads lazily inside the cut loops / comprehensions, with identical values
and identical final caches). -/
def gatherS (w : World) (i : FigId) : Except Err (Pos × List (Pos × PlayerId)) × World :=
  match figPosS w i with
  | (.error e, w1) => (.error e, w1)
  | (.ok pos, w1) =>
    match tableFiguresS w1 with
    | (figs, w2) =>
      match positionsS w2 figs with
      | (.error e, w3) => (.error e, w3)
      | (.ok ps, w3) => (.ok (pos, ps.zip (figs.map (fun g => World.ownerOfD w3 g))), w3)

/-- Offset tables of the two leapers (figures.py 185, 192). -/
def offsetsOf : FigKind → List Pos
  | .knight => [(2, 1), (2, -1), (-2, 1), (-2, -1), (1, 2), (1, -2), (-1, 2), (-1, -2)]
  | .king => [(0, 1), (1, 0), (0, -1), (-1, 0), (1, -1), (-1, 1), (1, 1), (-1, -1)]
  | _ => []

/-- Body of Knight._validate_moves (figures.py 175-179): keep an offset
destination when `0 <= move[0] <= rows` and `0 <= move[1] <= columns` and it
is no figure's position or the first figure there has another owner. -/
def validateVal (rows columns : Int) (offsets : List Pos) (pos : Pos)
    (tps : List (Pos × PlayerId)) (me : PlayerId) : Finset Pos :=
  offsets.foldl
    (fun acc o =>
      let mv : Pos := (pos.1 + o.1, pos.2 + o.2)
      if (0 ≤ mv.1 ∧ mv.1 ≤ rows) ∧ (0 ≤ mv.2 ∧ mv.2 ≤ columns) then
        match tps.find? (fun x => decide (x.1 = mv)) with
        | none => insert mv acc
        | some x => if me ≠ x.2 then insert mv acc else acc
      else acc)
    ∅

/-- The caching skeleton shared by every available_moves property (base.py
150-156 and its overrides): return the cached set if present, else gather
the inputs, run the per-class computation, memoise and return. -/
def cachedAvailS
    (compute : World → FigureData → Pos → List (Pos × PlayerId) → Except Err (Finset Pos))
    (w : World) (i : FigId) : Except Err (Finset Pos) × World :=
  match w.figures[i]? with
  | none => (.error .badId, w)
  | some f =>
    match f.movesCache with
    | some s => (.ok s, w)
    | none =>
      match gatherS w i with
      | (.error e, w1) => (.error e, w1)
      | (.ok (pos, tps), w3) =>
        match compute w3 f pos tps with
        | .error e => (.error e, w3)
        | .ok s => (.ok s, w3.updFig i (fun g => { g with movesCache := some s }))

/-- Knight._validate_moves / King.available_moves (figures.py 167-193):
cached, else gather state and validate the offset table, memoised. -/
def validateMovesS (offsets : List Pos) (w : World) (i : FigId) :
    Except Err (Finset Pos) × World :=
  cachedAvailS
    (fun w3 f pos tps => .ok (validateVal (w3.table.rows : Int) (w3.table.columns : Int)
      offsets pos tps f.player))
    w i

/-- Value of Rook.available_moves (figures.py 108-113): union of the four
cut axis rays. -/
def rookVal (rows columns : Int) (pos : Pos) (tps : List (Pos × PlayerId))
    (me : PlayerId) : Finset Pos :=
  match straight_moves pos rows columns tps me with
  | (u, d, l, r) => u.toFinset ∪ d.toFinset ∪ l.toFinset ∪ r.toFinset

/-- Value of Bishop.available_moves (figures.py 147-153): union of the four
cut diagonal rays. -/
def bishopVal (rows columns : Int) (pos : Pos) (tps : List (Pos × PlayerId))
    (me : PlayerId) : Finset Pos :=
  match oblique_moves pos rows columns tps me with
  | (lu, ld, ru, rd) => lu.toFinset ∪ ld.toFinset ∪ ru.toFinset ∪ rd.toFinset

/-- Rook.available_moves (figures.py 108-113). -/
def rookAvailS (w : World) (i : FigId) : Except Err (Finset Pos) × World :=
  cachedAvailS
    (fun w3 f pos tps => .ok (rookVal (w3.table.rows : Int) (w3.table.columns : Int)
      pos tps f.player))
    w i

/-- Bishop.available_moves (figures.py 147-153). -/
def bishopAvailS (w : World) (i : FigId) : Except Err (Finset Pos) × World :=
  cachedAvailS
    (fun w3 f pos tps => .ok (bishopVal (w3.table.rows : Int) (w3.table.columns : Int)
      pos tps f.player))
    w i

/-- Queen.available_moves (figures.py 157-164): union of the Rook and
Bishop computations (Queen inherits both). -/
def queenAvailS (w : World) (i : FigId) : Except Err (Finset Pos) × World :=
  cachedAvailS
    (fun w3 f pos tps =>
      .ok (rookVal (w3.table.rows : Int) (w3.table.columns : Int) pos tps f.player ∪
        bishopVal (w3.table.rows : Int) (w3.table.columns : Int) pos tps f.player))
    w i

/-- The oblique comprehension of Pawn.available_moves (figures.py 78-79):
keep a square when `table.get_figure` returns a figure of another owner; a
raw indexing failure inside the comprehension propagates as `IndexError`. -/
def pawnObliqueFilter (w : World) (me : PlayerId) : List Pos → Except Err (List Pos)
  | [] => .ok []
  | q :: rest =>
    match w.table.get_figure q with
    | none => .error .indexError
    | some none => pawnObliqueFilter w me rest
    | some (some g) =>
      if World.ownerOfD w g ≠ me then
        match pawnObliqueFilter w me rest with
        | .error e => .error e
        | .ok l => .ok (q :: l)
      else pawnObliqueFilter w me rest

/-- Body of Pawn.available_moves (figures.py 50-84) over the gathered data.
The two symmetric source branches (`goes_up` rows decrease, else increase)
are rendered with `dir = -1` / `dir = +1`: straight candidates `(r+dir, c)`
and, on the first move, `(r+2·dir, c)`; oblique candidates `(r+dir, c±1)`.
Both candidate lists are clipped by `coordinate < extent` only, every
figure's position is removed from the straight list, and oblique squares
are kept only when held by an opponent.  The straight candidates
(figures.py 56-67). -/
def pawnStraight0 (dir : Int) (fm : Bool) (pos : Pos) : List Pos :=
  (pos.1 + dir, pos.2) :: (if fm then [(pos.1 + dir + dir, pos.2)] else [])

/-- The two oblique candidates of Pawn.available_moves (figures.py 60-67). -/
def pawnOblique0 (dir : Int) (pos : Pos) : List Pos :=
  [(pos.1 + dir, pos.2 + 1), (pos.1 + dir, pos.2 - 1)]

/-- The edge clip of Pawn.available_moves (figures.py 69-70): keep squares
with each coordinate below the stored extent (no lower bound). -/
def clipB (rows columns : Int) (q : Pos) : Bool :=
  decide (q.1 < rows) && decide (q.2 < columns)

def pawnVal (w : World) (rows columns : Int) (me : PlayerId) (fm : Bool) (pos : Pos)
    (tps : List (Pos × PlayerId)) : Except Err (Finset Pos) :=
  let dir : Int := if World.goesUpOf w me then -1 else 1
  let straight1 := (pawnStraight0 dir fm pos).filter (clipB rows columns)
  let oblique1 := (pawnOblique0 dir pos).filter (clipB rows columns)
  let straight2 := (tps.map (·.1)).foldl (fun acc q => acc.erase q) straight1
  match pawnObliqueFilter w me oblique1 with
  | .error e => .error e
  | .ok oblique2 => .ok (straight2.toFinset ∪ oblique2.toFinset)

/-- Pawn.available_moves (figures.py 50-84): cached, else gather state and
compute `pawnVal`, memoised. -/
def pawnAvailS (w : World) (i : FigId) : Except Err (Finset Pos) × World :=
  cachedAvailS
    (fun w3 f pos tps => pawnVal w3 (w3.table.rows : Int) (w3.table.columns : Int)
      f.player f.first_move pos tps)
    w i

/-- The available_moves property of any figure, dispatching on its class. -/
def availS (w : World) (i : FigId) : Except Err (Finset Pos) × World :=
  match w.kindOf i with
  | none => (.error .badId, w)
  | some .pawn => pawnAvailS w i
  | some .rook => rookAvailS w i
  | some .bishop => bishopAvailS w i
  | some .queen => queenAvailS w i
  | some .knight => validateMovesS (offsetsOf .knight) w i
  | some .king => validateMovesS (offsetsOf .king) w i

/-- Last stage of Figure.move (base.py 143-144): place the figure at the
destination (a raw write that can raise) and reset the owner's and table's
caches; `w4` is the state with the origin already cleared and the moving
figure's caches reset. -/
def figMovePlace (w4 : World) (i : FigId) (dst : Pos) : Except Err Unit × World :=
  match w4.table.set_figure (some i) dst with
  | none => (.error .indexError, w4)
  | some t2 =>
    (.ok (), ({ w4 with table := t2 }).resetPlayer (({ w4 with table := t2 }).ownerOfD i))

/-- Middle stage of Figure.move (base.py 141-144): clear the origin cell,
reset the moving figure's caches, then place it; `w2` is the state after
the validity check, `pos` the figure's (memoised) position. -/
def figMoveClear (w2 : World) (i : FigId) (dst pos : Pos) : Except Err Unit × World :=
  match w2.table.set_figure none pos with
  | none => (.error .indexError, w2)
  | some t1 =>
    figMovePlace (({ w2 with table := t1 }).updFig i
      (fun g => { g with posCache := none, movesCache := none })) i dst

/-- Figure.move (base.py 135-144): check `to in self.available_moves` (the
invalid branch builds its message from `self.position`, whose read can
itself raise), then clear the origin cell, reset the figure's caches, set
the figure at `to`, and reset the owner's and table's caches. -/
def figMoveS (w : World) (i : FigId) (dst : Pos) : Except Err Unit × World :=
  match availS w i with
  | (.error e, w1) => (.error e, w1)
  | (.ok s, w1) =>
    if dst ∈ s then
      match figPosS w1 i with
      | (.error e, w2) => (.error e, w2)
      | (.ok pos, w2) => figMoveClear w2 i dst pos
    else
      match figPosS w1 i with
      | (.error e, w2) => (.error e, w2)
      | (.ok _, w2) => (.error .invalidMove, w2)

/-- Tail of Pawn.move (figures.py 89): the redundant `set_figure(self, to)`
after the flag write; `w2` is the state with `first_move` already cleared. -/
def pawnMovePlace (w2 : World) (i : FigId) (dst : Pos) : Except Err Unit × World :=
  match w2.table.set_figure (some i) dst with
  | none => (.error .indexError, w2)
  | some t => (.ok (), { w2 with table := t })

/-- Pawn.move (figures.py 86-89): the base move, then `first_move = False`,
then a redundant `set_figure(self, to)`. -/
def pawnMoveS (w : World) (i : FigId) (dst : Pos) : Except Err Unit × World :=
  match figMoveS w i dst with
  | (.error e, w1) => (.error e, w1)
  | (.ok _, w1) =>
    pawnMovePlace (w1.updFig i (fun g => { g with first_move := false })) i dst

/-- Dynamic dispatch of `figure.move(to)`: Pawn overrides the base method. -/
def moveS (w : World) (i : FigId) (dst : Pos) : Except Err Unit × World :=
  match w.kindOf i with
  | some .pawn => pawnMoveS w i dst
  | _ => figMoveS w i dst

/-- Player.figures property read (base.py 97-102): the cache if set, else
the owned figures on the table (computed but, in the source, never stored
back into the cache). -/
def playerFiguresS (w : World) (p : PlayerId) : List FigId × World :=
  match (w.players[p]?).bind (·.figCache) with
  | some l => (l, w)
  | none =>
    match tableFiguresS w with
    | (figs, w1) => (figs.filter (fun g => decide (World.ownerOfD w1 g = p)), w1)

/-- Player.move (base.py 81-92): `MissingFigure` when the source square is
empty (its message reads the positions of all owned figures), `AccessError`
when the figure there has another owner, else delegate to the figure's own
move.  The `MissingFigure` branch first materialises the message's
`set(i.position for i in self.figures)` (base.py 87-89). -/
def playerMissingBody (w : World) (p : PlayerId) : Except Err Unit × World :=
  match playerFiguresS w p with
  | (l, w1) =>
    match positionsS w1 l with
    | (.error e, w2) => (.error e, w2)
    | (.ok _, w2) => (.error .missingFigure, w2)

def playerMoveS (w : World) (p : PlayerId) (frm dst : Pos) : Except Err Unit × World :=
  match w.table.get_figure frm with
  | none => (.error .indexError, w)
  | some none => playerMissingBody w p
  | some (some g) =>
    if World.ownerOfD w g = p then moveS w g dst
    else (.error .accessError, w)

/-- Figure.player property setter (base.py 123-126): the body
`self.player = player` re-invokes the setter itself; `fuel` models Python's
recursion limit, and exhausting it is a `RecursionError`. -/
def playerSetter (fuel : Nat) (w : World) (i : FigId) (p : PlayerId) : Except Err World :=
  match fuel with
  | 0 => .error .recursionError
  | n + 1 => playerSetter n w i p

/-- Player.add_figure (base.py 77-79): `figure.player = self`. -/
def add_figure (fuel : Nat) (w : World) (p : PlayerId) (i : FigId) : Except Err World :=
  playerSetter fuel w i p

/-- The legal-move set the engine reports for a figure (ok value of the
available_moves property), `none` when the read raises. -/
def movesOf (w : World) (i : FigId) : Option (Finset Pos) :=
  match availS w i with
  | (.ok s, _) => some s
  | (.error _, _) => none

/-- Occupant of an on-board square: the spec-side view of board occupancy
(no index wrap-around, off-board squares are unoccupied). -/
def occupant (w : World) (q : Pos) : Option FigId :=
  if 0 ≤ q.1 ∧ 0 ≤ q.2 then
    match w.table.cells[q.1.toNat]? with
    | none => none
    | some row => (row[q.2.toNat]?).join
  else none

/-- Number of cells of the grid holding the given figure. -/
def countFig (fid : FigId) (cells : List (List (Option FigId))) : Nat :=
  (cells.map (fun row => row.count (some fid))).sum

/-- A well-formed square engine state: an `n × n` grid whose stored extents
match, every cell reference denoting a figure object, no figure on two
cells, and every lazy cache empty (freshly invalidated). -/
abbrev WF (n : Nat) (w : World) : Prop :=
  w.table.rows = n ∧ w.table.columns = n ∧
  w.table.cells.length = n ∧ (∀ row ∈ w.table.cells, row.length = n) ∧
  (∀ g ∈ tableFiguresList w.table, g < w.figures.length) ∧
  (∀ g ∈ tableFiguresList w.table, countFig g w.table.cells ≤ 1) ∧
  (∀ f ∈ w.figures, f.posCache = none) ∧
  (∀ f ∈ w.figures, f.movesCache = none) ∧
  w.table.figCache = none ∧
  (∀ pl ∈ w.players, pl.figCache = none)

/-- Setup helper: place a figure on a table cell, keeping the table on an
out-of-range position. -/
def place (t : TableData) (f : FigId) (p : Pos) : TableData :=
  (t.set_figure (some f) p).getD t

/-- Setup helper: an `n × n` game with White (player 0, goes up) and Black
(player 1, goes down) and the listed figures, figure number `i` being the
`i`-th list entry placed at its given position with fresh caches. -/
def mkWorld (n : Nat) (figs : List (FigKind × PlayerId × Pos)) : World :=
  { table := (figs.enum).foldl (fun t x => place t x.1 x.2.2.2) (TableData.init n n)
    figures := figs.map (fun x =>
      { kind := x.1, player := x.2.1, posCache := none, movesCache := none,
        first_move := true })
    players := [{ goes_up := true, figCache := none }, { goes_up := false, figCache := none }] }

/-- Scenario board for the ray-truncation property, scanning right: a White
rook at (3,1), a Black piece at distance 3 on its rank, a White piece at
distance 5. -/
def rookW1 : World :=
  mkWorld 8 [(.rook, 0, (3, 1)), (.pawn, 1, (3, 4)), (.pawn, 0, (3, 6))]

/-- Mirrored scenario, scanning left (so the friendly piece precedes the
opponent in the table's row-major figure order): White rook at (3,6), Black
piece at (3,3), White piece at (3,1). -/
def rookW2 : World :=
  mkWorld 8 [(.rook, 0, (3, 6)), (.pawn, 1, (3, 3)), (.pawn, 0, (3, 1))]

/-- Scenario board: a White knight on (3,3) surrounded on all 8 adjacent
squares by White pawns. -/
def surroundW : World :=
  mkWorld 8 [(.knight, 0, (3, 3)),
    (.pawn, 0, (2, 2)), (.pawn, 0, (2, 3)), (.pawn, 0, (2, 4)),
    (.pawn, 0, (3, 2)), (.pawn, 0, (3, 4)),
    (.pawn, 0, (4, 2)), (.pawn, 0, (4, 3)), (.pawn, 0, (4, 4))]

/-- Scenario board: a single White pawn at (6,4) on an empty board. -/
def pawnW : World :=
  mkWorld 8 [(.pawn, 0, (6, 4))]

/-- Scenario board: a single White pawn on row 0 at the given column. -/
def p0World (c : Int) : World :=
  mkWorld 8 [(.pawn, 0, (0, c))]

/-- Scenario board: a White pawn on (0,3) (its forward diagonals are off the
board) and a Black piece at (7,4), the square row index -1 wraps around to. -/
def wrapW : World :=
  mkWorld 8 [(.pawn, 0, (0, 3)), (.pawn, 1, (7, 4))]

/-- Scenario board: a single White king at the far corner (7,7). -/
def kingW : World :=
  mkWorld 8 [(.king, 0, (7, 7))]

/-- Scenario board: a White queen at (3,3) with a Black piece at (3,6) and a
White piece at (5,5). -/
def queenW : World :=
  mkWorld 8 [(.queen, 0, (3, 3)), (.pawn, 1, (3, 6)), (.pawn, 0, (5, 5))]

/-- Totalised scanned position (used only where the scan is known to
succeed). -/
def posD (t : TableData) (g : FigId) : Pos :=
  (computePosition t g).getD (0, 0)

/-- Position and owner of every figure on the table, in row-major scan
order: the data the cut / validate loops consume. -/
def tpsOf (w : World) : List (Pos × PlayerId) :=
  (tableFiguresList w.table).map (fun g => (posD w.table g, World.ownerOfD w g))

/-- Replace the class tag of one figure, everything else unchanged. -/
def World.setKind (w : World) (i : FigId) (k : FigKind) : World :=
  w.updFig i (fun f => { f with kind := k })

/-- Forward row step of a pawn of the given player (toward row 0 for a
player that goes up). -/
def pawnDir (w : World) (p : PlayerId) : Int :=
  if World.goesUpOf w p then -1 else 1

/-- The full rank ray to the right of the rook of `rookW1`. -/
def rayRight : Finset Pos :=
  {((3:Int), (2:Int)), (3, 3), (3, 4), (3, 5), (3, 6), (3, 7)}

/-- The full rank ray to the left of the rook of `rookW2`. -/
def rayLeft : Finset Pos :=
  {((3:Int), (0:Int)), (3, 1), (3, 2), (3, 3), (3, 4), (3, 5)}

/-- Scenario board: a White pawn at (4,4) with a Black piece on its
forward-right diagonal (3,5). -/
def pawnCapW : World :=
  mkWorld 8 [(.pawn, 0, (4, 4)), (.pawn, 1, (3, 5))]

/-- State after the scenario pawn's two-step opening move. -/
def pawnW1 : World := (moveS pawnW 0 (4, 4)).2

/-- State after re-reading that pawn's available moves (a pure cache fill). -/
def pawnW2 : World := (availS pawnW1 0).2

/-- State after the pawn's second move. -/
def pawnW3 : World := (moveS pawnW2 0 (3, 4)).2

/-! ### Basic lemmas about world updates -/

theorem updFig_table (w : World) (i : FigId) (g : FigureData → FigureData) :
    (w.updFig i g).table = w.table := by
  unfold World.updFig
  cases w.figures[i]? <;> rfl

theorem updFig_players (w : World) (i : FigId) (g : FigureData → FigureData) :
    (w.updFig i g).players = w.players := by
  unfold World.updFig
  cases w.figures[i]? <;> rfl

theorem updFig_figures_length (w : World) (i : FigId) (g : FigureData → FigureData) :
    (w.updFig i g).figures.length = w.figures.length := by
  unfold World.updFig
  cases w.figures[i]? <;> simp

theorem updFig_getElem_self (w : World) (i : FigId) (g : FigureData → FigureData)
    (f : FigureData) (hf : w.figures[i]? = some f) :
    (w.updFig i g).figures[i]? = some (g f) := by
  unfold World.updFig
  rw [hf]
  have hlen : i < w.figures.length := (List.getElem?_eq_some.mp hf).1
  simp [List.getElem?_set, hlen]

theorem updFig_getElem_ne (w : World) (i : FigId) (g : FigureData → FigureData)
    (j : FigId) (hj : i ≠ j) :
    (w.updFig i g).figures[j]? = w.figures[j]? := by
  unfold World.updFig
  cases hx : w.figures[i]? with
  | none => rfl
  | some f => simp [List.getElem?_set_ne hj]

/-- Non-cache view of a figure object. -/
def FigureData.core (f : FigureData) : FigKind × PlayerId × Bool :=
  (f.kind, f.player, f.first_move)

/-- Two worlds with the same players and the same non-cache figure fields
(the cache contents may differ). -/
abbrev FieldsEq (w w' : World) : Prop :=
  w'.players = w.players ∧
  w'.figures.length = w.figures.length ∧
  ∀ j : FigId, ((w'.figures[j]?).map FigureData.core) = ((w.figures[j]?).map FigureData.core)

theorem FieldsEq.feRefl (w : World) : FieldsEq w w :=
  ⟨rfl, rfl, fun _ => rfl⟩

theorem FieldsEq.feTrans {w1 w2 w3 : World} (h1 : FieldsEq w1 w2) (h2 : FieldsEq w2 w3) :
    FieldsEq w1 w3 :=
  ⟨h2.1.trans h1.1, h2.2.1.trans h1.2.1, fun j => (h2.2.2 j).trans (h1.2.2 j)⟩

theorem FieldsEq.updFig_cache (w : World) (i : FigId) (g : FigureData → FigureData)
    (hg : ∀ f, (g f).core = f.core) :
    FieldsEq w (w.updFig i g) := by
  refine ⟨updFig_players w i g, updFig_figures_length w i g, fun j => ?_⟩
  by_cases hij : i = j
  · subst hij
    cases hf : w.figures[i]? with
    | none => simp [World.updFig, hf]
    | some f => simp [updFig_getElem_self w i g f hf, hf, hg f]
  · rw [updFig_getElem_ne w i g j hij]

theorem ownerOfD_congr {w w' : World} (h : FieldsEq w w') (i : FigId) :
    World.ownerOfD w' i = World.ownerOfD w i := by
  unfold World.ownerOfD
  have hc := h.2.2 i
  cases hx : w'.figures[i]? <;> cases hy : w.figures[i]? <;>
    rw [hx, hy] at hc <;> simp_all [FigureData.core, Prod.ext_iff]

theorem kindOf_congr {w w' : World} (h : FieldsEq w w') (i : FigId) :
    World.kindOf w' i = World.kindOf w i := by
  unfold World.kindOf
  have hc := h.2.2 i
  cases hx : w'.figures[i]? <;> cases hy : w.figures[i]? <;>
    rw [hx, hy] at hc <;> simp_all [FigureData.core, Prod.ext_iff]

theorem goesUpOf_congr {w w' : World} (h : FieldsEq w w') (p : PlayerId) :
    World.goesUpOf w' p = World.goesUpOf w p := by
  unfold World.goesUpOf
  rw [h.1]

/-! ### Lemmas about the grid scan -/

/-- Cell content addressed by Nat indices (`none` when out of range or
empty). -/
def cellNat (cells : List (List (Option FigId))) (i j : Nat) : Option FigId :=
  match cells[i]? with
  | none => none
  | some row => (row[j]?).join

theorem mem_of_getElem?_some {α : Type _} {l : List α} {j : Nat} {a : α}
    (h : l[j]? = some a) : a ∈ l := by
  obtain ⟨hlt, he⟩ := List.getElem?_eq_some.mp h
  exact he ▸ List.getElem_mem hlt

theorem rowFind_eq_some {fid : FigId} {row : List (Option FigId)} {j : Nat}
    (h : rowFind fid row = some j) : row[j]? = some (some fid) := by
  induction row generalizing j with
  | nil => simp [rowFind] at h
  | cons c rest ih =>
    by_cases hc : c = some fid
    · simp only [rowFind, if_pos hc, Option.some.injEq] at h
      subst h
      simp [hc]
    · simp only [rowFind, if_neg hc] at h
      cases hr : rowFind fid rest with
      | none => rw [hr] at h; simp at h
      | some k =>
        rw [hr] at h
        simp only [Option.map_some', Option.some.injEq] at h
        subst h
        simpa using ih hr

theorem rowFind_isSome_of_mem {fid : FigId} {row : List (Option FigId)}
    (h : some fid ∈ row) : (rowFind fid row).isSome := by
  induction row with
  | nil => simp at h
  | cons c rest ih =>
    by_cases hc : c = some fid
    · simp [rowFind, hc]
    · have hm : some fid ∈ rest := by
        cases List.mem_cons.mp h with
        | inl he => exact absurd he.symm hc
        | inr hm => exact hm
      simp only [rowFind, if_neg hc]
      cases hr : rowFind fid rest with
      | none => rw [hr] at ih; simp at ih; exact absurd hm ih
      | some k => simp

theorem rowFind_of_getElem {fid : FigId} {row : List (Option FigId)} {j : Nat}
    (hu : row.count (some fid) ≤ 1) (h : row[j]? = some (some fid)) :
    rowFind fid row = some j := by
  induction row generalizing j with
  | nil => simp at h
  | cons c rest ih =>
    by_cases hc : c = some fid
    · have hcnt : rest.count (some fid) = 0 := by
        rw [List.count_cons] at hu
        simp [hc] at hu
        omega
      have hnm : some fid ∉ rest := by
        intro hm
        have := List.count_pos_iff.mpr hm
        omega
      cases j with
      | zero => simp [rowFind, hc]
      | succ k =>
        exfalso
        exact hnm (mem_of_getElem?_some (by simpa using h))
    · cases j with
      | zero => simp at h; exact absurd h hc
      | succ k =>
        have hr : rest[k]? = some (some fid) := by simpa using h
        have hu' : rest.count (some fid) ≤ 1 := by
          rw [List.count_cons] at hu
          omega
        simp [rowFind, hc, ih hu' hr]

theorem countFig_cons (fid : FigId) (row : List (Option FigId))
    (rest : List (List (Option FigId))) :
    countFig fid (row :: rest) = row.count (some fid) + countFig fid rest := by
  simp [countFig]

theorem countFig_pos_of_cellNat {fid : FigId} {cells : List (List (Option FigId))}
    {i j : Nat} (h : cellNat cells i j = some fid) : 1 ≤ countFig fid cells := by
  induction cells generalizing i with
  | nil => simp [cellNat] at h
  | cons row rest ih =>
    rw [countFig_cons]
    cases i with
    | zero =>
      have hrow : row[j]? = some (some fid) := by
        simp only [cellNat, List.getElem?_cons_zero] at h
        cases hx : row[j]? with
        | none => rw [hx] at h; simp [Option.join] at h
        | some c => rw [hx] at h; simp [Option.join] at h; rw [h]
      have := List.count_pos_iff.mpr (mem_of_getElem?_some hrow)
      omega
    | succ k =>
      have h' : cellNat rest k j = some fid := by simpa [cellNat] using h
      have := ih h'
      omega

theorem gridFind_eq_some {fid : FigId} {cells : List (List (Option FigId))}
    {i j : Nat} (h : gridFind fid cells = some (i, j)) : cellNat cells i j = some fid := by
  induction cells generalizing i with
  | nil => simp [gridFind] at h
  | cons row rest ih =>
    cases hr : rowFind fid row with
    | some j0 =>
      simp only [gridFind, hr, Option.some.injEq] at h
      have hi : i = 0 := (Prod.mk.injEq _ _ _ _ ▸ h).1.symm ▸ rfl
      obtain ⟨h1, h2⟩ := Prod.mk.injEq _ _ _ _ ▸ h
      subst h1
      subst h2
      have hrow := rowFind_eq_some hr
      simp [cellNat, hrow, Option.join]
    | none =>
      simp only [gridFind, hr] at h
      cases hg : gridFind fid rest with
      | none => rw [hg] at h; simp at h
      | some ij =>
        rw [hg] at h
        simp only [Option.map_some', Option.some.injEq] at h
        obtain ⟨h1, h2⟩ := Prod.mk.injEq _ _ _ _ ▸ h
        cases i with
        | zero => omega
        | succ k =>
          have hk : ij.1 = k := by omega
          have hj : ij.2 = j := h2
          have := ih (hg.trans (by rw [show ij = (k, j) from Prod.ext hk hj]))
          simpa [cellNat] using this

theorem gridFind_of_cellNat {fid : FigId} {cells : List (List (Option FigId))}
    {i j : Nat} (hu : countFig fid cells ≤ 1) (h : cellNat cells i j = some fid) :
    gridFind fid cells = some (i, j) := by
  induction cells generalizing i with
  | nil => simp [cellNat] at h
  | cons row rest ih =>
    rw [countFig_cons] at hu
    cases i with
    | zero =>
      have hrow : row[j]? = some (some fid) := by
        simp only [cellNat, List.getElem?_cons_zero] at h
        cases hx : row[j]? with
        | none => rw [hx] at h; simp [Option.join] at h
        | some c => rw [hx] at h; simp [Option.join] at h; rw [h]
      have hcu : row.count (some fid) ≤ 1 := by omega
      simp [gridFind, rowFind_of_getElem hcu hrow]
    | succ k =>
      have h' : cellNat rest k j = some fid := by simpa [cellNat] using h
      have hrest := countFig_pos_of_cellNat h'
      have hrow0 : row.count (some fid) = 0 := by omega
      have hrf : rowFind fid row = none := by
        cases hr : rowFind fid row with
        | none => rfl
        | some j0 =>
          have := List.count_pos_iff.mpr (mem_of_getElem?_some (rowFind_eq_some hr))
          omega
      have hu' : countFig fid rest ≤ 1 := by omega
      simp [gridFind, hrf, ih hu' h']

theorem mem_tableFiguresList {fid : FigId} {t : TableData} :
    fid ∈ tableFiguresList t ↔ ∃ i j, cellNat t.cells i j = some fid := by
  unfold tableFiguresList
  rw [List.mem_flatMap]
  constructor
  · rintro ⟨row, hrow, hfid⟩
    obtain ⟨c, hc, hcf⟩ := List.mem_filterMap.mp hfid
    obtain ⟨i, hi⟩ := List.mem_iff_getElem?.mp hrow
    obtain ⟨j, hj⟩ := List.mem_iff_getElem?.mp hc
    exact ⟨i, j, by simp [cellNat, hi, hj, hcf]⟩
  · rintro ⟨i, j, h⟩
    cases hx : t.cells[i]? with
    | none => simp [cellNat, hx] at h
    | some row =>
      simp only [cellNat, hx] at h
      cases hy : row[j]? with
      | none => rw [hy] at h; simp [Option.join] at h
      | some c =>
        rw [hy] at h
        simp [Option.join] at h
        refine ⟨row, mem_of_getElem?_some hx, List.mem_filterMap.mpr ⟨c, mem_of_getElem?_some hy, ?_⟩⟩
        rw [h]

theorem gridFind_isSome_of_mem {fid : FigId} {t : TableData}
    (h : fid ∈ tableFiguresList t) : (gridFind fid t.cells).isSome := by
  obtain ⟨i, j, hc⟩ := mem_tableFiguresList.mp h
  revert hc
  generalize t.cells = cells
  intro hc
  induction cells generalizing i with
  | nil => simp [cellNat] at hc
  | cons row rest ih =>
    cases hr : rowFind fid row with
    | some j0 => simp [gridFind, hr]
    | none =>
      cases i with
      | zero =>
        exfalso
        have hrow : row[j]? = some (some fid) := by
          simp only [cellNat, List.getElem?_cons_zero] at hc
          cases hx : row[j]? with
          | none => rw [hx] at hc; simp [Option.join] at hc
          | some c => rw [hx] at hc; simp [Option.join] at hc; rw [hc]
        have := rowFind_isSome_of_mem (mem_of_getElem?_some hrow)
        rw [hr] at this
        simp at this
      | succ k =>
        have h' : cellNat rest k j = some fid := by simpa [cellNat] using hc
        have := ih k h'
        simp only [gridFind, hr]
        cases hg : gridFind fid rest with
        | none => rw [hg] at this; simp at this
        | some ij => simp

/-! ### Characterisation of the memoised reads -/

theorem computePosition_congr {t t' : TableData} (h : t'.cells = t.cells) (g : FigId) :
    computePosition t' g = computePosition t g := by
  unfold computePosition
  rw [h]

theorem posD_congr {t t' : TableData} (h : t'.cells = t.cells) (g : FigId) :
    posD t' g = posD t g := by
  unfold posD
  rw [computePosition_congr h]

/-- Caches only ever get filled with the scanned value: each figure keeps
its moves cache and either keeps its position cache or fills an empty one
with the scan result. -/
def CachePres (w w' : World) : Prop :=
  ∀ j fj, w.figures[j]? = some fj → ∃ fj', w'.figures[j]? = some fj' ∧
    fj'.movesCache = fj.movesCache ∧
    (fj'.posCache = fj.posCache ∨
      (fj.posCache = none ∧ fj'.posCache = computePosition w.table j))

theorem CachePres.cpRefl (w : World) : CachePres w w :=
  fun _ fj h => ⟨fj, h, Eq.refl _, Or.inl (Eq.refl _)⟩

theorem CachePres.cpTrans {w w1 w2 : World} (h1 : CachePres w w1) (h2 : CachePres w1 w2)
    (ht : w1.table.cells = w.table.cells) : CachePres w w2 := by
  intro j fj hj
  obtain ⟨f1, hj1, hm1, hp1⟩ := h1 j fj hj
  obtain ⟨f2, hj2, hm2, hp2⟩ := h2 j f1 hj1
  refine ⟨f2, hj2, hm2.trans hm1, ?_⟩
  have hcc : computePosition w1.table j = computePosition w.table j := computePosition_congr ht j
  cases hp2 with
  | inl he => cases hp1 with
    | inl he1 => exact Or.inl (he.trans he1)
    | inr he1 => exact Or.inr ⟨he1.1, he.trans he1.2⟩
  | inr he =>
    cases hp1 with
    | inl he1 => exact Or.inr ⟨he1 ▸ he.1, he.2.trans hcc⟩
    | inr he1 => exact Or.inr ⟨he1.1, he.2.trans hcc⟩

theorem figPosS_cached (w : World) (i : FigId) (f : FigureData) (p : Pos)
    (hf : w.figures[i]? = some f) (hc : f.posCache = some p) :
    figPosS w i = (.ok p, w) := by
  simp only [figPosS, hf, hc]

theorem figPosS_spec (w : World) (i : FigId) (f : FigureData)
    (hf : w.figures[i]? = some f)
    (hcoh : f.posCache = none ∨ f.posCache = computePosition w.table i) :
    (figPosS w i).1 = (match computePosition w.table i with
      | some p => Except.ok p
      | none => Except.error Err.missingFigure) ∧
    (figPosS w i).2.table = w.table ∧
    FieldsEq w (figPosS w i).2 ∧
    CachePres w (figPosS w i).2 ∧
    ((computePosition w.table i).isSome →
      ∃ f', (figPosS w i).2.figures[i]? = some f' ∧
        f'.posCache = computePosition w.table i ∧ f'.movesCache = f.movesCache) := by
  cases hc : f.posCache with
  | some p =>
    have hcp : computePosition w.table i = some p := by
      cases hcoh with
      | inl h => rw [h] at hc; cases hc
      | inr h => rw [← h, hc]
    rw [figPosS_cached w i f p hf hc]
    refine ⟨by rw [hcp], rfl, FieldsEq.feRefl w, CachePres.cpRefl w, fun _ => ⟨f, hf, ?_, rfl⟩⟩
    rw [hcp, hc]
  | none =>
    cases hcp : computePosition w.table i with
    | none =>
      have hfp : figPosS w i = (.error .missingFigure, w) := by
        simp only [figPosS, hf, hc, hcp]
      rw [hfp]
      exact ⟨rfl, rfl, FieldsEq.feRefl w, CachePres.cpRefl w, fun h => by simp at h⟩
    | some p =>
      have hfp : figPosS w i = (.ok p, w.updFig i (fun g => { g with posCache := some p })) := by
        simp only [figPosS, hf, hc, hcp]
      rw [hfp]
      refine ⟨rfl, updFig_table .., FieldsEq.updFig_cache w i _ (fun _ => rfl), ?_, ?_⟩
      · intro j fj hj
        by_cases hij : i = j
        · subst hij
          rw [hf] at hj
          injection hj with hfj
          subst hfj
          exact ⟨_, updFig_getElem_self w i _ f hf, rfl, Or.inr ⟨hc, by rw [hcp]⟩⟩
        · exact ⟨fj, (updFig_getElem_ne w i _ j hij).trans hj, rfl, Or.inl rfl⟩
      · intro _
        exact ⟨_, updFig_getElem_self w i _ f hf, rfl, rfl⟩

theorem tableFiguresS_spec (w : World)
    (hcoh : w.table.figCache = none ∨ w.table.figCache = some (tableFiguresList w.table)) :
    (tableFiguresS w).1 = tableFiguresList w.table ∧
    (tableFiguresS w).2.table.cells = w.table.cells ∧
    (tableFiguresS w).2.table.rows = w.table.rows ∧
    (tableFiguresS w).2.table.columns = w.table.columns ∧
    (tableFiguresS w).2.figures = w.figures ∧
    (tableFiguresS w).2.players = w.players := by
  cases hc : w.table.figCache with
  | none =>
    unfold tableFiguresS
    rw [hc]
    exact ⟨rfl, rfl, rfl, rfl, rfl, rfl⟩
  | some l =>
    have hl : l = tableFiguresList w.table := by
      cases hcoh with
      | inl h => rw [h] at hc; cases hc
      | inr h => rw [h] at hc; exact (Option.some.injEq _ _ ▸ hc).symm ▸ rfl
    unfold tableFiguresS
    rw [hc]
    exact ⟨hl, rfl, rfl, rfl, rfl, rfl⟩

theorem positionsS_cons_eq (w : World) (g : FigId) (rest : List FigId) :
    positionsS w (g :: rest) =
      (match figPosS w g with
       | (.error e, w1) => (.error e, w1)
       | (.ok p, w1) =>
         match positionsS w1 rest with
         | (.error e, w2) => (.error e, w2)
         | (.ok ps, w2) => (.ok (p :: ps), w2)) := rfl

theorem positionsS_spec : ∀ (l : List FigId) (w : World),
    (∀ g ∈ l, ∃ fg, w.figures[g]? = some fg ∧
      (fg.posCache = none ∨ fg.posCache = computePosition w.table g)) →
    (∀ g ∈ l, (computePosition w.table g).isSome) →
    (positionsS w l).1 = .ok (l.map (posD w.table)) ∧
    (positionsS w l).2.table = w.table ∧
    FieldsEq w (positionsS w l).2 ∧
    CachePres w (positionsS w l).2 := by
  intro l
  induction l with
  | nil =>
    intro w _ _
    exact ⟨rfl, rfl, FieldsEq.feRefl w, CachePres.cpRefl w⟩
  | cons g rest ih =>
    intro w hcoh hsome
    obtain ⟨fg, hfg, hcg⟩ := hcoh g (List.mem_cons_self g rest)
    obtain ⟨hv, ht, hfe, hcp, hfill⟩ := figPosS_spec w g fg hfg hcg
    have hgs := hsome g (List.mem_cons_self g rest)
    obtain ⟨p, hp⟩ := Option.isSome_iff_exists.mp hgs
    set w1 := (figPosS w g).2 with hw1
    have hv1 : (figPosS w g).1 = .ok p := by rw [hv, hp]
    have hpd : p = posD w.table g := by simp [posD, hp]
    have hrest_coh : ∀ g' ∈ rest, ∃ fg', w1.figures[g']? = some fg' ∧
        (fg'.posCache = none ∨ fg'.posCache = computePosition w1.table g') := by
      intro g' hg'
      obtain ⟨fo, hfo, hco⟩ := hcoh g' (List.mem_cons_of_mem g hg')
      obtain ⟨fn, hfn, _, hdisj⟩ := hcp g' fo hfo
      refine ⟨fn, hfn, ?_⟩
      rw [ht, computePosition_congr (t := w.table) rfl]
      cases hdisj with
      | inl he => rw [he]; exact hco
      | inr he => exact Or.inr he.2
    have hrest_some : ∀ g' ∈ rest, (computePosition w1.table g').isSome := by
      intro g' hg'
      rw [ht]
      exact hsome g' (List.mem_cons_of_mem g hg')
    obtain ⟨hv2, ht2, hfe2, hcp2⟩ := ih w1 hrest_coh hrest_some
    have hfg_eq : figPosS w g = (.ok p, w1) := Prod.ext hv1 rfl
    obtain ⟨r2, w2, hr2⟩ : ∃ r w2, positionsS w1 rest = (r, w2) := ⟨_, _, rfl⟩
    have hv2' : r2 = .ok (rest.map (posD w1.table)) := by
      have h := hv2; rw [hr2] at h; exact h
    have ht2' : w2.table = w.table := by
      have h := ht2.trans ht; rw [hr2] at h; exact h
    have hfe2' : FieldsEq w1 w2 := by
      have h := hfe2; rw [hr2] at h; exact h
    have hcp2' : CachePres w1 w2 := by
      have h := hcp2; rw [hr2] at h; exact h
    have hstep : positionsS w (g :: rest) = (.ok (p :: rest.map (posD w1.table)), w2) := by
      simp only [positionsS_cons_eq, hfg_eq, hr2, hv2']
    rw [hstep]
    have hmap : rest.map (posD w1.table) = rest.map (posD w.table) :=
      List.map_congr_left (fun x _ => by rw [show w1.table = w.table from ht])
    refine ⟨?_, ht2', hfe.feTrans hfe2', hcp.cpTrans hcp2' (by rw [ht])⟩
    rw [List.map_cons, hmap, hpd]

theorem FieldsEq_of_eq {w w' : World} (hfig : w'.figures = w.figures)
    (hpl : w'.players = w.players) : FieldsEq w w' :=
  ⟨hpl, by rw [hfig], fun j => by rw [hfig]⟩

theorem computePosition_isSome_of_mem {t : TableData} {g : FigId}
    (h : g ∈ tableFiguresList t) : (computePosition t g).isSome := by
  have hg := gridFind_isSome_of_mem h
  unfold computePosition
  cases hx : gridFind g t.cells with
  | none => rw [hx] at hg; simp at hg
  | some ij => simp

theorem gatherS_spec (n : Nat) (w : World) (i : FigId) (f : FigureData) (pos : Pos)
    (hwf : WF n w) (hf : w.figures[i]? = some f)
    (hpos : computePosition w.table i = some pos) :
    ∃ w3, gatherS w i = (.ok (pos, tpsOf w), w3) ∧
      w3.table.cells = w.table.cells ∧
      w3.table.rows = w.table.rows ∧
      w3.table.columns = w.table.columns ∧
      FieldsEq w w3 ∧
      (∃ f3, w3.figures[i]? = some f3 ∧ f3.posCache = some pos ∧
        f3.movesCache = f.movesCache) := by
  obtain ⟨hrw, hcl, hlen, hrl, hvalid, huniq, hposC, hmovC, htbl, hplC⟩ := hwf
  have hfmem : f ∈ w.figures := mem_of_getElem?_some hf
  obtain ⟨hv1, ht1, hfe1, hcp1, hfill1⟩ :=
    figPosS_spec w i f hf (Or.inl (hposC f hfmem))
  set w1 := (figPosS w i).2 with hw1def
  have hfg : figPosS w i = (.ok pos, w1) := by
    refine Prod.ext ?_ rfl
    rw [hv1, hpos]
  obtain ⟨f1, hf1, hf1p, hf1m⟩ := hfill1 (by rw [hpos]; rfl)
  have htf_coh : w1.table.figCache = none ∨
      w1.table.figCache = some (tableFiguresList w1.table) := by
    rw [ht1]
    exact Or.inl htbl
  obtain ⟨hvtf, hctf, hrtf, hcltf, hftf, hptf⟩ := tableFiguresS_spec w1 htf_coh
  set w2 := (tableFiguresS w1).2 with hw2def
  set figs := tableFiguresList w.table with hfigsdef
  have hfigs1 : tableFiguresList w1.table = figs := by rw [ht1]
  have htf : tableFiguresS w1 = (figs, w2) := by
    refine Prod.ext ?_ rfl
    rw [hvtf, hfigs1]
  have hw2cells : w2.table.cells = w.table.cells := by rw [hctf, ht1]
  have hw2figs : w2.figures = w1.figures := hftf
  have hcp2 : CachePres w w2 := by
    intro j fj hj
    obtain ⟨fj', hj', hm', hp'⟩ := hcp1 j fj hj
    exact ⟨fj', by rw [hw2figs]; exact hj', hm', hp'⟩
  have hfe2 : FieldsEq w w2 :=
    hfe1.feTrans (FieldsEq_of_eq hw2figs hptf)
  have hpos_coh : ∀ g ∈ figs, ∃ fg, w2.figures[g]? = some fg ∧
      (fg.posCache = none ∨ fg.posCache = computePosition w2.table g) := by
    intro g hg
    have hglen : g < w.figures.length := hvalid g hg
    have hgx : w.figures[g]? = some w.figures[g] := List.getElem?_eq_getElem hglen
    obtain ⟨fg', hg', _, hp'⟩ := hcp2 g _ hgx
    refine ⟨fg', hg', ?_⟩
    rw [computePosition_congr (t := w.table) hw2cells]
    cases hp' with
    | inl he =>
      rw [he]
      exact Or.inl (hposC _ (List.getElem_mem hglen))
    | inr he => exact Or.inr he.2
  have hpos_some : ∀ g ∈ figs, (computePosition w2.table g).isSome := by
    intro g hg
    rw [computePosition_congr (t := w.table) hw2cells]
    exact computePosition_isSome_of_mem hg
  obtain ⟨hvp, htp, hfep, hcpp⟩ := positionsS_spec figs w2 hpos_coh hpos_some
  set w3 := (positionsS w2 figs).2 with hw3def
  set ps := figs.map (posD w.table) with hpsdef
  have hps_eq : figs.map (posD w2.table) = ps := by
    apply List.map_congr_left
    intro x _
    exact posD_congr hw2cells x
  have hpp : positionsS w2 figs = (.ok ps, w3) := by
    refine Prod.ext ?_ rfl
    rw [hvp, hps_eq]
  have hfe3 : FieldsEq w w3 := hfe2.feTrans hfep
  have hw3cells : w3.table.cells = w.table.cells := by rw [htp]; exact hw2cells
  have howners : figs.map (fun g => World.ownerOfD w3 g) =
      figs.map (fun g => World.ownerOfD w g) := by
    apply List.map_congr_left
    intro x _
    exact ownerOfD_congr hfe3 x
  have hzip : ps.zip (figs.map (fun g => World.ownerOfD w3 g)) = tpsOf w := by
    rw [howners, hpsdef, List.zip_map']
    rfl
  have hgather : gatherS w i = (.ok (pos, tpsOf w), w3) := by
    simp only [gatherS, hfg, htf, hpp, hzip]
  refine ⟨w3, hgather, hw3cells, ?_, ?_, hfe3, ?_⟩
  · rw [htp, hrtf, ht1]
  · rw [htp, hcltf, ht1]
  · obtain ⟨fg3, hg3, hm3, hp3⟩ := hcpp i f1 (by rw [hw2figs]; exact hf1)
    refine ⟨fg3, hg3, ?_, hm3.trans hf1m⟩
    cases hp3 with
    | inl he => rw [he, hf1p]; exact hpos
    | inr he => rw [hf1p, hpos] at he; cases he.1

theorem cachedAvailS_spec (n : Nat) (w : World) (i : FigId) (f : FigureData) (pos : Pos)
    (compute : World → FigureData → Pos → List (Pos × PlayerId) → Except Err (Finset Pos))
    (hwf : WF n w) (hf : w.figures[i]? = some f)
    (hpos : computePosition w.table i = some pos) :
    ∃ w3, w3.table.cells = w.table.cells ∧
      w3.table.rows = w.table.rows ∧
      w3.table.columns = w.table.columns ∧
      FieldsEq w w3 ∧
      (∃ f3, w3.figures[i]? = some f3 ∧ f3.posCache = some pos) ∧
      cachedAvailS compute w i =
        (match compute w3 f pos (tpsOf w) with
         | .error e => (.error e, w3)
         | .ok s => (.ok s, w3.updFig i (fun g => { g with movesCache := some s }))) := by
  obtain ⟨w3, hg, hcells, hrows, hcols, hfe, f3, hf3, hf3p, _⟩ :=
    gatherS_spec n w i f pos hwf hf hpos
  have hmov : f.movesCache = none := hwf.2.2.2.2.2.2.2.1 f (mem_of_getElem?_some hf)
  refine ⟨w3, hcells, hrows, hcols, hfe, ⟨f3, hf3, hf3p⟩, ?_⟩
  simp only [cachedAvailS, hf, hmov, hg]

/-- Common shape of the conclusions of the per-class available_moves
lemmas: the property returns the given set and the output world keeps the
board, the figure fields and the figure's computed position. -/
def AvailOut (w : World) (i : FigId) (pos : Pos) (s : Finset Pos)
    (r : Except Err (Finset Pos) × World) : Prop :=
  r.1 = .ok s ∧
  r.2.table.cells = w.table.cells ∧
  FieldsEq w r.2 ∧
  (∃ f4, r.2.figures[i]? = some f4 ∧ f4.posCache = some pos)

theorem availOut_of_ok {w w3 : World} {i : FigId} {pos : Pos} {s : Finset Pos}
    (hcells : w3.table.cells = w.table.cells) (hfe : FieldsEq w w3)
    (hf3 : ∃ f3, w3.figures[i]? = some f3 ∧ f3.posCache = some pos) :
    AvailOut w i pos s (.ok s, w3.updFig i (fun g => { g with movesCache := some s })) := by
  obtain ⟨f3, hf3e, hf3p⟩ := hf3
  refine ⟨rfl, by rw [updFig_table]; exact hcells,
    hfe.feTrans (FieldsEq.updFig_cache w3 i _ (fun _ => rfl)), ?_⟩
  exact ⟨_, updFig_getElem_self w3 i _ f3 hf3e, hf3p⟩

theorem validateMovesS_spec (n : Nat) (w : World) (i : FigId) (f : FigureData) (pos : Pos)
    (offsets : List Pos) (hwf : WF n w) (hf : w.figures[i]? = some f)
    (hpos : computePosition w.table i = some pos) :
    AvailOut w i pos (validateVal (n : Int) (n : Int) offsets pos (tpsOf w) f.player)
      (validateMovesS offsets w i) := by
  obtain ⟨w3, hcells, hrows, hcols, hfe, hf3, heq⟩ :=
    cachedAvailS_spec n w i f pos _ hwf hf hpos
  unfold validateMovesS
  rw [heq]
  have hr : (w3.table.rows : Int) = (n : Int) := by rw [hrows, hwf.1]
  have hc : (w3.table.columns : Int) = (n : Int) := by rw [hcols, hwf.2.1]
  rw [hr, hc]
  exact availOut_of_ok hcells hfe hf3

theorem rookAvailS_spec (n : Nat) (w : World) (i : FigId) (f : FigureData) (pos : Pos)
    (hwf : WF n w) (hf : w.figures[i]? = some f)
    (hpos : computePosition w.table i = some pos) :
    AvailOut w i pos (rookVal (n : Int) (n : Int) pos (tpsOf w) f.player)
      (rookAvailS w i) := by
  obtain ⟨w3, hcells, hrows, hcols, hfe, hf3, heq⟩ :=
    cachedAvailS_spec n w i f pos _ hwf hf hpos
  unfold rookAvailS
  rw [heq]
  have hr : (w3.table.rows : Int) = (n : Int) := by rw [hrows, hwf.1]
  have hc : (w3.table.columns : Int) = (n : Int) := by rw [hcols, hwf.2.1]
  rw [hr, hc]
  exact availOut_of_ok hcells hfe hf3

theorem bishopAvailS_spec (n : Nat) (w : World) (i : FigId) (f : FigureData) (pos : Pos)
    (hwf : WF n w) (hf : w.figures[i]? = some f)
    (hpos : computePosition w.table i = some pos) :
    AvailOut w i pos (bishopVal (n : Int) (n : Int) pos (tpsOf w) f.player)
      (bishopAvailS w i) := by
  obtain ⟨w3, hcells, hrows, hcols, hfe, hf3, heq⟩ :=
    cachedAvailS_spec n w i f pos _ hwf hf hpos
  unfold bishopAvailS
  rw [heq]
  have hr : (w3.table.rows : Int) = (n : Int) := by rw [hrows, hwf.1]
  have hc : (w3.table.columns : Int) = (n : Int) := by rw [hcols, hwf.2.1]
  rw [hr, hc]
  exact availOut_of_ok hcells hfe hf3

theorem queenAvailS_spec (n : Nat) (w : World) (i : FigId) (f : FigureData) (pos : Pos)
    (hwf : WF n w) (hf : w.figures[i]? = some f)
    (hpos : computePosition w.table i = some pos) :
    AvailOut w i pos
      (rookVal (n : Int) (n : Int) pos (tpsOf w) f.player ∪
        bishopVal (n : Int) (n : Int) pos (tpsOf w) f.player)
      (queenAvailS w i) := by
  obtain ⟨w3, hcells, hrows, hcols, hfe, hf3, heq⟩ :=
    cachedAvailS_spec n w i f pos _ hwf hf hpos
  unfold queenAvailS
  rw [heq]
  have hr : (w3.table.rows : Int) = (n : Int) := by rw [hrows, hwf.1]
  have hc : (w3.table.columns : Int) = (n : Int) := by rw [hcols, hwf.2.1]
  rw [hr, hc]
  exact availOut_of_ok hcells hfe hf3

theorem pyGet_mem {l : List α} {i : Int} {a : α} (h : pyGet l i = some a) : a ∈ l := by
  unfold pyGet at h
  split at h
  · exact mem_of_getElem?_some h
  · split at h
    · exact mem_of_getElem?_some h
    · cases h

theorem pyGet_isSome {l : List α} {i : Int} (h1 : -(l.length : Int) ≤ i)
    (h2 : i < l.length) : (pyGet l i).isSome := by
  unfold pyGet
  split
  · rename_i h0
    have : i.toNat < l.length := by omega
    simp [List.getElem?_eq_getElem this]
  · rename_i h0
    have hneg : (-i).toNat ≤ l.length := by omega
    rw [if_pos hneg]
    have hpos : 0 < (-i).toNat := by omega
    have : l.length - (-i).toNat < l.length := by omega
    simp [List.getElem?_eq_getElem this]

theorem get_figure_congr {t t' : TableData} (h : t'.cells = t.cells) (q : Pos) :
    t'.get_figure q = t.get_figure q := by
  unfold TableData.get_figure
  rw [h]

theorem get_figure_isSome {t : TableData} {n : Nat} (hlen : t.cells.length = n)
    (hrl : ∀ row ∈ t.cells, row.length = n) {q : Pos}
    (h1 : -(n : Int) ≤ q.1) (h2 : q.1 < (n : Int)) (h3 : -(n : Int) ≤ q.2)
    (h4 : q.2 < (n : Int)) : (t.get_figure q).isSome := by
  unfold TableData.get_figure
  have hout : (pyGet t.cells q.1).isSome := pyGet_isSome (by omega) (by omega)
  cases hx : pyGet t.cells q.1 with
  | none => rw [hx] at hout; cases hout
  | some row =>
    have hrow : row.length = n := hrl row (pyGet_mem hx)
    exact pyGet_isSome (by omega) (by omega)

theorem pawnObliqueFilter_ok (w : World) (me : PlayerId) (l : List Pos)
    (h : ∀ q ∈ l, (w.table.get_figure q).isSome) :
    ∃ res, pawnObliqueFilter w me l = .ok res := by
  induction l with
  | nil => exact ⟨[], rfl⟩
  | cons q rest ih =>
    have hq := h q (List.mem_cons_self q rest)
    obtain ⟨res, hres⟩ := ih (fun x hx => h x (List.mem_cons_of_mem q hx))
    cases hx : w.table.get_figure q with
    | none => rw [hx] at hq; cases hq
    | some c =>
      cases c with
      | none => exact ⟨res, by simp only [pawnObliqueFilter, hx]; exact hres⟩
      | some g =>
        by_cases ho : World.ownerOfD w g ≠ me
        · exact ⟨q :: res, by simp only [pawnObliqueFilter, hx, if_pos ho, hres]⟩
        · exact ⟨res, by simp only [pawnObliqueFilter, hx, if_neg ho]; exact hres⟩

theorem pawnObliqueFilter_congr {w w' : World} (hc : w'.table.cells = w.table.cells)
    (hfe : FieldsEq w w') (me : PlayerId) : ∀ l : List Pos,
    pawnObliqueFilter w' me l = pawnObliqueFilter w me l := by
  intro l
  induction l with
  | nil => rfl
  | cons q rest ih =>
    simp only [pawnObliqueFilter, get_figure_congr hc, ownerOfD_congr hfe, ih]

theorem pawnVal_congr {w w' : World} (hc : w'.table.cells = w.table.cells)
    (hfe : FieldsEq w w') (rows columns : Int) (me : PlayerId) (fm : Bool) (pos : Pos)
    (tps : List (Pos × PlayerId)) :
    pawnVal w' rows columns me fm pos tps = pawnVal w rows columns me fm pos tps := by
  simp only [pawnVal, goesUpOf_congr hfe, pawnObliqueFilter_congr hc hfe]

theorem computePosition_bounds {t : TableData} {fid : FigId} {pos : Pos}
    (h : computePosition t fid = some pos) :
    ∃ (i0 j0 : Nat) (row : List (Option FigId)), pos = ((i0 : Int), (j0 : Int)) ∧
      t.cells[i0]? = some row ∧ row[j0]? = some (some fid) := by
  unfold computePosition at h
  obtain ⟨ij, hij, hcast⟩ := Option.map_eq_some'.mp h
  have hij2 : gridFind fid t.cells = some (ij.1, ij.2) := by rw [hij]
  have hcell := gridFind_eq_some hij2
  refine ⟨ij.1, ij.2, ?_⟩
  cases hx : t.cells[ij.1]? with
  | none => simp [cellNat, hx] at hcell
  | some row =>
    simp only [cellNat, hx] at hcell
    cases hy : row[ij.2]? with
    | none => rw [hy] at hcell; simp [Option.join] at hcell
    | some c =>
      rw [hy] at hcell
      simp [Option.join] at hcell
      exact ⟨row, hcast.symm, rfl, by rw [hy, hcell]⟩

theorem pawnObliqueFilter_ne_error (w : World) (me : PlayerId) (l : List Pos)
    (h : ∀ q ∈ l, (w.table.get_figure q).isSome) :
    ∀ e, pawnObliqueFilter w me l ≠ .error e := by
  intro e hcontra
  obtain ⟨res, hres⟩ := pawnObliqueFilter_ok w me l h
  rw [hres] at hcontra
  cases hcontra

theorem pawnVal_ok (w : World) (rows columns : Int) (me : PlayerId) (fm : Bool)
    (pos : Pos) (tps : List (Pos × PlayerId))
    (h : ∀ q : Pos, (q.1 = pos.1 + 1 ∨ q.1 = pos.1 - 1) →
      (q.2 = pos.2 + 1 ∨ q.2 = pos.2 - 1) → q.1 < rows → q.2 < columns →
      (w.table.get_figure q).isSome) :
    ∃ s, pawnVal w rows columns me fm pos tps = .ok s := by
  simp only [pawnVal]
  split
  · rename_i e heq
    exfalso
    refine pawnObliqueFilter_ne_error w me _ ?_ e heq
    intro q hq
    obtain ⟨hq0, hclip⟩ := List.mem_filter.mp hq
    have hr : q.1 < rows := by
      have := (Bool.and_eq_true _ _ ▸ hclip).1
      simpa using this
    have hc : q.2 < columns := by
      have := (Bool.and_eq_true _ _ ▸ hclip).2
      simpa using this
    have hx : (q.1 = pos.1 + 1 ∨ q.1 = pos.1 - 1) ∧
        (q.2 = pos.2 + 1 ∨ q.2 = pos.2 - 1) := by
      rcases List.mem_cons.mp hq0 with he | he
      · constructor
        · rw [he]
          split <;> [exact Or.inr (by omega); exact Or.inl rfl]
        · rw [he]
          exact Or.inl rfl
      · rcases List.mem_cons.mp he with he2 | he2
        · constructor
          · rw [he2]
            split <;> [exact Or.inr (by omega); exact Or.inl rfl]
          · rw [he2]
            exact Or.inr rfl
        · simp at he2
    exact h q hx.1 hx.2 hr hc
  · exact ⟨_, rfl⟩

theorem pawnAvailS_spec (n : Nat) (w : World) (i : FigId) (f : FigureData) (pos : Pos)
    (hwf : WF n w) (hf : w.figures[i]? = some f)
    (hpos : computePosition w.table i = some pos) :
    ∃ s, pawnVal w (n : Int) (n : Int) f.player f.first_move pos (tpsOf w) = .ok s ∧
      AvailOut w i pos s (pawnAvailS w i) := by
  obtain ⟨w3, hcells, hrows, hcols, hfe, hf3, heq⟩ :=
    cachedAvailS_spec n w i f pos _ hwf hf hpos
  obtain ⟨i0, j0, row, hpe, hcell, hrowj⟩ := computePosition_bounds hpos
  have hi0 : i0 < w.table.cells.length := (List.getElem?_eq_some.mp hcell).1
  have hj0 : j0 < row.length := (List.getElem?_eq_some.mp hrowj).1
  have hrown : row.length = n := hwf.2.2.2.1 row (mem_of_getElem?_some hcell)
  have hlen : w.table.cells.length = n := hwf.2.2.1
  have hp1 : pos.1 = (i0 : Int) := by rw [hpe]
  have hp2 : pos.2 = (j0 : Int) := by rw [hpe]
  obtain ⟨s, hs⟩ := pawnVal_ok w (n : Int) (n : Int) f.player f.first_move pos (tpsOf w)
    (by
      intro q hq1 hq2 hqr hqc
      refine get_figure_isSome hlen hwf.2.2.2.1 ?_ hqr ?_ hqc
      · rcases hq1 with he | he <;> omega
      · rcases hq2 with he | he <;> omega)
  refine ⟨s, hs, ?_⟩
  unfold pawnAvailS
  rw [heq]
  have hr : (w3.table.rows : Int) = (n : Int) := by rw [hrows, hwf.1]
  have hc : (w3.table.columns : Int) = (n : Int) := by rw [hcols, hwf.2.1]
  rw [hr, hc, pawnVal_congr hcells hfe, hs]
  exact availOut_of_ok hcells hfe hf3

/-! ### Occupancy and the figure-position list -/

theorem occupant_eq_cellNat {w : World} {q : Pos} (h1 : 0 ≤ q.1) (h2 : 0 ≤ q.2) :
    occupant w q = cellNat w.table.cells q.1.toNat q.2.toNat := by
  unfold occupant cellNat
  rw [if_pos ⟨h1, h2⟩]

theorem occupant_neg {w : World} {q : Pos} (h : ¬(0 ≤ q.1 ∧ 0 ≤ q.2)) :
    occupant w q = none := by
  unfold occupant
  rw [if_neg h]

theorem occupant_of_computePosition {n : Nat} {w : World} {g : FigId} {q : Pos}
    (hc : computePosition w.table g = some q) : occupant w q = some g := by
  obtain ⟨i0, j0, row, hpe, hcell, hrowj⟩ := computePosition_bounds hc
  subst hpe
  rw [occupant_eq_cellNat (by positivity) (by positivity)]
  simp only [Int.toNat_ofNat, Int.toNat_natCast]
  simp [cellNat, hcell, hrowj, Option.join]

theorem computePosition_of_occupant {n : Nat} {w : World} {g : FigId} {q : Pos}
    (hwf : WF n w) (ho : occupant w q = some g) :
    g ∈ tableFiguresList w.table ∧ computePosition w.table g = some q := by
  by_cases hb : 0 ≤ q.1 ∧ 0 ≤ q.2
  · rw [occupant_eq_cellNat hb.1 hb.2] at ho
    have hmem : g ∈ tableFiguresList w.table :=
      mem_tableFiguresList.mpr ⟨q.1.toNat, q.2.toNat, ho⟩
    have huniq := hwf.2.2.2.2.2.1 g hmem
    have hgf := gridFind_of_cellNat huniq ho
    refine ⟨hmem, ?_⟩
    unfold computePosition
    rw [hgf]
    simp only [Option.map_some']
    rw [show ((q.1.toNat : Int), (q.2.toNat : Int)) = q from
      Prod.ext (Int.toNat_of_nonneg hb.1) (Int.toNat_of_nonneg hb.2)]
  · rw [occupant_neg hb] at ho
    cases ho

theorem posD_eq_iff {n : Nat} {w : World} {g : FigId} {q : Pos}
    (hwf : WF n w) (hmem : g ∈ tableFiguresList w.table) :
    posD w.table g = q ↔ computePosition w.table g = some q := by
  have hs := computePosition_isSome_of_mem hmem
  obtain ⟨p, hp⟩ := Option.isSome_iff_exists.mp hs
  unfold posD
  rw [hp]
  simp

theorem find_tps_none_iff {n : Nat} {w : World} (hwf : WF n w) (q : Pos) :
    (tpsOf w).find? (fun x => decide (x.1 = q)) = none ↔ occupant w q = none := by
  unfold tpsOf
  rw [List.find?_map]
  constructor
  · intro h
    have hnone := Option.map_eq_none'.mp h
    rw [List.find?_eq_none] at hnone
    cases ho : occupant w q with
    | none => rfl
    | some g =>
      exfalso
      obtain ⟨hmem, hcp⟩ := computePosition_of_occupant hwf ho
      have hng := hnone g hmem
      simp only [Function.comp] at hng
      have hpd := (posD_eq_iff hwf hmem).mpr hcp
      exact hng (by simp [hpd])
  · intro ho
    rw [Option.map_eq_none']
    rw [List.find?_eq_none]
    intro g hmem
    simp only [Function.comp]
    intro hdec
    have hq : posD w.table g = q := by simpa using hdec
    have hcp := (posD_eq_iff hwf hmem).mp hq
    rw [occupant_of_computePosition (n := n) hcp] at ho
    cases ho

theorem find_tps_some {n : Nat} {w : World} (hwf : WF n w) {q : Pos}
    {x : Pos × PlayerId}
    (h : (tpsOf w).find? (fun y => decide (y.1 = q)) = some x) :
    ∃ g, occupant w q = some g ∧ x.2 = World.ownerOfD w g := by
  have hx1 : x.1 = q := by
    have := List.find?_some h
    simpa using this
  have hxm := List.mem_of_find?_eq_some h
  unfold tpsOf at hxm
  obtain ⟨g, hgmem, hge⟩ := List.mem_map.mp hxm
  have hpd : posD w.table g = q := by rw [← hx1, ← hge]
  have hcp := (posD_eq_iff hwf hgmem).mp hpd
  exact ⟨g, occupant_of_computePosition (n := n) hcp, by rw [← hge]⟩

/-! ### Membership in the leaper move set -/

theorem mem_validateVal_fold (rows columns : Int) (pos : Pos)
    (tps : List (Pos × PlayerId)) (me : PlayerId) (q : Pos) :
    ∀ (offsets : List Pos) (acc : Finset Pos),
    (q ∈ offsets.foldl
      (fun acc o =>
        let mv : Pos := (pos.1 + o.1, pos.2 + o.2)
        if (0 ≤ mv.1 ∧ mv.1 ≤ rows) ∧ (0 ≤ mv.2 ∧ mv.2 ≤ columns) then
          match tps.find? (fun x => decide (x.1 = mv)) with
          | none => insert mv acc
          | some x => if me ≠ x.2 then insert mv acc else acc
        else acc)
      acc) ↔
    q ∈ acc ∨ ∃ o ∈ offsets, q = (pos.1 + o.1, pos.2 + o.2) ∧
      (0 ≤ q.1 ∧ q.1 ≤ rows) ∧ (0 ≤ q.2 ∧ q.2 ≤ columns) ∧
      (tps.find? (fun x => decide (x.1 = q)) = none ∨
        ∃ x, tps.find? (fun x => decide (x.1 = q)) = some x ∧ me ≠ x.2) := by
  intro offsets
  induction offsets with
  | nil => simp
  | cons o rest ih =>
    intro acc
    rw [List.foldl_cons, ih]
    constructor
    · rintro (hacc | hrest)
      · by_cases hbounds : (0 ≤ pos.1 + o.1 ∧ pos.1 + o.1 ≤ rows) ∧
            (0 ≤ pos.2 + o.2 ∧ pos.2 + o.2 ≤ columns)
        · simp only [if_pos hbounds] at hacc
          cases hfind : tps.find? (fun x => decide (x.1 = (pos.1 + o.1, pos.2 + o.2))) with
          | none =>
            rw [hfind] at hacc
            rcases Finset.mem_insert.mp hacc with he | he
            · subst he
              exact Or.inr ⟨o, List.mem_cons_self o rest, rfl,
                ⟨hbounds.1.1, hbounds.1.2⟩, ⟨hbounds.2.1, hbounds.2.2⟩, Or.inl hfind⟩
            · exact Or.inl he
          | some x =>
            rw [hfind] at hacc
            have hacc2 : q ∈ (if me ≠ x.2 then
                insert ((pos.1 + o.1, pos.2 + o.2) : Pos) acc else acc) := hacc
            by_cases hx : me ≠ x.2
            · rw [if_pos hx] at hacc2
              rcases Finset.mem_insert.mp hacc2 with he | he
              · subst he
                exact Or.inr ⟨o, List.mem_cons_self o rest, rfl,
                  ⟨hbounds.1.1, hbounds.1.2⟩, ⟨hbounds.2.1, hbounds.2.2⟩,
                  Or.inr ⟨x, hfind, hx⟩⟩
              · exact Or.inl he
            · rw [if_neg hx] at hacc2
              exact Or.inl hacc2
        · simp only [if_neg hbounds] at hacc
          exact Or.inl hacc
      · obtain ⟨o', ho', he, hb1, hb2, hocc⟩ := hrest
        exact Or.inr ⟨o', List.mem_cons_of_mem o ho', he, hb1, hb2, hocc⟩
    · rintro (hacc | ⟨o', ho', he, hb1, hb2, hocc⟩)
      · left
        show q ∈ (if (0 ≤ pos.1 + o.1 ∧ pos.1 + o.1 ≤ rows) ∧
            (0 ≤ pos.2 + o.2 ∧ pos.2 + o.2 ≤ columns) then
          match tps.find? (fun x => decide (x.1 = (pos.1 + o.1, pos.2 + o.2))) with
          | none => insert (pos.1 + o.1, pos.2 + o.2) acc
          | some x => if me ≠ x.2 then insert (pos.1 + o.1, pos.2 + o.2) acc else acc
          else acc)
        split
        · cases hfind : tps.find? (fun x => decide (x.1 = (pos.1 + o.1, pos.2 + o.2))) with
          | none => exact Finset.mem_insert_of_mem hacc
          | some x =>
            show q ∈ (if me ≠ x.2 then insert (pos.1 + o.1, pos.2 + o.2) acc else acc)
            by_cases hx : me ≠ x.2
            · rw [if_pos hx]; exact Finset.mem_insert_of_mem hacc
            · rw [if_neg hx]; exact hacc
        · exact hacc
      · rcases List.mem_cons.mp ho' with heo | heo
        · subst heo
          left
          show q ∈ (if (0 ≤ pos.1 + o'.1 ∧ pos.1 + o'.1 ≤ rows) ∧
              (0 ≤ pos.2 + o'.2 ∧ pos.2 + o'.2 ≤ columns) then
            match tps.find? (fun x => decide (x.1 = (pos.1 + o'.1, pos.2 + o'.2))) with
            | none => insert (pos.1 + o'.1, pos.2 + o'.2) acc
            | some x => if me ≠ x.2 then insert (pos.1 + o'.1, pos.2 + o'.2) acc else acc
            else acc)
          have hq1 : q.1 = pos.1 + o'.1 := by rw [he]
          have hq2 : q.2 = pos.2 + o'.2 := by rw [he]
          rw [if_pos (by refine ⟨⟨?_, ?_⟩, ⟨?_, ?_⟩⟩ <;> omega)]
          rcases hocc with hn | ⟨x, hs, hx⟩
          · rw [he] at hn
            rw [hn]
            exact Finset.mem_insert.mpr (Or.inl he)
          · rw [he] at hs
            rw [hs]
            show q ∈ (if me ≠ x.2 then insert ((pos.1 + o'.1, pos.2 + o'.2) : Pos) acc
              else acc)
            rw [if_pos hx]
            exact Finset.mem_insert.mpr (Or.inl he)
        · exact Or.inr ⟨o', heo, he, hb1, hb2, hocc⟩

theorem mem_validateVal (rows columns : Int) (offsets : List Pos) (pos : Pos)
    (tps : List (Pos × PlayerId)) (me : PlayerId) (q : Pos) :
    q ∈ validateVal rows columns offsets pos tps me ↔
      ∃ o ∈ offsets, q = (pos.1 + o.1, pos.2 + o.2) ∧
        (0 ≤ q.1 ∧ q.1 ≤ rows) ∧ (0 ≤ q.2 ∧ q.2 ≤ columns) ∧
        (tps.find? (fun x => decide (x.1 = q)) = none ∨
          ∃ x, tps.find? (fun x => decide (x.1 = q)) = some x ∧ me ≠ x.2) := by
  unfold validateVal
  rw [mem_validateVal_fold]
  simp

/-! ### Dispatch and reported move sets -/

theorem kindOf_eq (w : World) (i : FigId) (f : FigureData) (hf : w.figures[i]? = some f) :
    w.kindOf i = some f.kind := by
  unfold World.kindOf
  rw [hf]
  rfl

theorem availS_dispatch (w : World) (i : FigId) (f : FigureData)
    (hf : w.figures[i]? = some f) :
    availS w i =
      (match f.kind with
       | .pawn => pawnAvailS w i
       | .rook => rookAvailS w i
       | .bishop => bishopAvailS w i
       | .queen => queenAvailS w i
       | .knight => validateMovesS (offsetsOf .knight) w i
       | .king => validateMovesS (offsetsOf .king) w i) := by
  unfold availS
  rw [kindOf_eq w i f hf]
  cases f.kind <;> rfl

theorem movesOf_eq_of_fst {w : World} {i : FigId} {s : Finset Pos}
    (h : (availS w i).1 = .ok s) : movesOf w i = some s := by
  unfold movesOf
  obtain ⟨r, w', hrw⟩ : ∃ r w', availS w i = (r, w') := ⟨_, _, rfl⟩
  rw [hrw]
  rw [hrw] at h
  have hr : r = .ok s := h
  rw [hr]

theorem movesOf_leaper (n : Nat) (w : World) (i : FigId) (f : FigureData) (pos : Pos)
    (hwf : WF n w) (hf : w.figures[i]? = some f)
    (hk : f.kind = .knight ∨ f.kind = .king)
    (hpos : computePosition w.table i = some pos) :
    movesOf w i =
      some (validateVal (n : Int) (n : Int) (offsetsOf f.kind) pos (tpsOf w) f.player) := by
  apply movesOf_eq_of_fst
  rw [availS_dispatch w i f hf]
  have hav := validateMovesS_spec n w i f pos (offsetsOf f.kind) hwf hf hpos
  rcases hk with h | h <;> rw [h] at hav ⊢ <;> exact hav.1

theorem movesOf_rook (n : Nat) (w : World) (i : FigId) (f : FigureData) (pos : Pos)
    (hwf : WF n w) (hf : w.figures[i]? = some f) (hk : f.kind = .rook)
    (hpos : computePosition w.table i = some pos) :
    movesOf w i = some (rookVal (n : Int) (n : Int) pos (tpsOf w) f.player) := by
  apply movesOf_eq_of_fst
  rw [availS_dispatch w i f hf, hk]
  exact (rookAvailS_spec n w i f pos hwf hf hpos).1

theorem movesOf_bishop (n : Nat) (w : World) (i : FigId) (f : FigureData) (pos : Pos)
    (hwf : WF n w) (hf : w.figures[i]? = some f) (hk : f.kind = .bishop)
    (hpos : computePosition w.table i = some pos) :
    movesOf w i = some (bishopVal (n : Int) (n : Int) pos (tpsOf w) f.player) := by
  apply movesOf_eq_of_fst
  rw [availS_dispatch w i f hf, hk]
  exact (bishopAvailS_spec n w i f pos hwf hf hpos).1

theorem movesOf_queen (n : Nat) (w : World) (i : FigId) (f : FigureData) (pos : Pos)
    (hwf : WF n w) (hf : w.figures[i]? = some f) (hk : f.kind = .queen)
    (hpos : computePosition w.table i = some pos) :
    movesOf w i = some (rookVal (n : Int) (n : Int) pos (tpsOf w) f.player ∪
      bishopVal (n : Int) (n : Int) pos (tpsOf w) f.player) := by
  apply movesOf_eq_of_fst
  rw [availS_dispatch w i f hf, hk]
  exact (queenAvailS_spec n w i f pos hwf hf hpos).1

theorem movesOf_pawn (n : Nat) (w : World) (i : FigId) (f : FigureData) (pos : Pos)
    (hwf : WF n w) (hf : w.figures[i]? = some f) (hk : f.kind = .pawn)
    (hpos : computePosition w.table i = some pos) :
    ∃ s, pawnVal w (n : Int) (n : Int) f.player f.first_move pos (tpsOf w) = .ok s ∧
      movesOf w i = some s := by
  obtain ⟨s, hs, hout⟩ := pawnAvailS_spec n w i f pos hwf hf hpos
  refine ⟨s, hs, ?_⟩
  apply movesOf_eq_of_fst
  rw [availS_dispatch w i f hf, hk]
  exact hout.1

/-! ### Well-formedness is stable under cache-shape-preserving figure updates -/

theorem WF_updFig (n : Nat) (w : World) (i : FigId) (g : FigureData → FigureData)
    (hwf : WF n w)
    (hg : ∀ f, (g f).posCache = f.posCache ∧ (g f).movesCache = f.movesCache) :
    WF n (w.updFig i g) := by
  obtain ⟨h1, h2, h3, h4, h5, h6, h7, h8, h9, h10⟩ := hwf
  cases hx : w.figures[i]? with
  | none =>
    have he : w.updFig i g = w := by simp [World.updFig, hx]
    rw [he]
    exact ⟨h1, h2, h3, h4, h5, h6, h7, h8, h9, h10⟩
  | some f =>
    have he : w.updFig i g = { w with figures := w.figures.set i (g f) } := by
      simp [World.updFig, hx]
    rw [he]
    refine ⟨h1, h2, h3, h4, ?_, h6, ?_, ?_, h9, h10⟩
    · intro x hx2
      rw [List.length_set]
      exact h5 x hx2
    · intro f' hf'
      rcases List.mem_or_eq_of_mem_set hf' with hm | hm
      · exact h7 f' hm
      · rw [hm, (hg f).1]
        exact h7 f (mem_of_getElem?_some hx)
    · intro f' hf'
      rcases List.mem_or_eq_of_mem_set hf' with hm | hm
      · exact h8 f' hm
      · rw [hm, (hg f).2]
        exact h8 f (mem_of_getElem?_some hx)

theorem tableFiguresList_congr {t t' : TableData} (h : t'.cells = t.cells) :
    tableFiguresList t' = tableFiguresList t := by
  unfold tableFiguresList
  rw [h]

theorem tpsOf_congr {w w' : World} (hc : w'.table.cells = w.table.cells)
    (hfe : FieldsEq w w') : tpsOf w' = tpsOf w := by
  unfold tpsOf
  rw [tableFiguresList_congr hc]
  apply List.map_congr_left
  intro g _
  rw [posD_congr hc, ownerOfD_congr hfe]

theorem setKind_table (w : World) (i : FigId) (k : FigKind) :
    (w.setKind i k).table = w.table := updFig_table w i _

theorem setKind_fieldsEq_cachewise (w : World) (i : FigId) (k : FigKind) :
    CachePres w (w.setKind i k) := by
  intro j fj hj
  by_cases hij : i = j
  · subst hij
    exact ⟨{ fj with kind := k }, updFig_getElem_self w i _ fj hj, rfl, Or.inl rfl⟩
  · exact ⟨fj, (updFig_getElem_ne w i _ j hij).trans hj, rfl, Or.inl rfl⟩

theorem WF_setKind (n : Nat) (w : World) (i : FigId) (k : FigKind) (hwf : WF n w) :
    WF n (w.setKind i k) :=
  WF_updFig n w i _ hwf (fun _ => ⟨rfl, rfl⟩)

theorem setKind_getElem_self (w : World) (i : FigId) (k : FigKind) (f : FigureData)
    (hf : w.figures[i]? = some f) :
    (w.setKind i k).figures[i]? = some { f with kind := k } :=
  updFig_getElem_self w i _ f hf

theorem setKind_fieldsEq_agree (w : World) (i : FigId) (k : FigKind) :
    (w.setKind i k).players = w.players ∧
    ∀ j, World.ownerOfD (w.setKind i k) j = World.ownerOfD w j := by
  constructor
  · exact updFig_players w i _
  · intro j
    unfold World.ownerOfD
    by_cases hij : i = j
    · subst hij
      cases hx : w.figures[i]? with
      | none => simp [World.updFig, World.setKind, hx]
      | some f =>
        rw [World.setKind, updFig_getElem_self w i _ f hx]
        rfl
    · rw [World.setKind, updFig_getElem_ne w i _ j hij]

/-! ### Pawn move-set analysis -/

theorem count_le_one_of_nodup {α : Type _} [BEq α] [LawfulBEq α] {l : List α}
    (h : l.Nodup) (a : α) : l.count a ≤ 1 := by
  induction l with
  | nil => simp
  | cons x xs ih =>
    rw [List.nodup_cons] at h
    rw [List.count_cons]
    by_cases hxa : (x == a) = true
    · have hxa2 : x = a := by simpa using hxa
      have h0 : xs.count a = 0 := List.count_eq_zero.mpr (hxa2 ▸ h.1)
      simp [hxa, h0]
    · have hf : (x == a) = false := by simpa using hxa
      simp [hf]
      exact ih h.2

theorem foldl_erase_subset (ps : List Pos) : ∀ l : List Pos,
    ps.foldl (fun acc q => acc.erase q) l ⊆ l := by
  induction ps with
  | nil => intro l; exact fun _ h => h
  | cons p rest ih =>
    intro l
    rw [List.foldl_cons]
    exact fun x hx => List.erase_subset p l (ih (l.erase p) hx)

theorem not_mem_foldl_erase {q : Pos} : ∀ (ps l : List Pos), q ∈ ps → l.count q ≤ 1 →
    q ∉ ps.foldl (fun acc q => acc.erase q) l := by
  intro ps
  induction ps with
  | nil => intro l h; simp at h
  | cons p rest ih =>
    intro l hq hcount
    rw [List.foldl_cons]
    by_cases hpq : p = q
    · subst hpq
      have hc0 : (l.erase p).count p = 0 := by
        rw [List.count_erase]
        simp
        omega
      have hnm : p ∉ l.erase p := by
        intro hm
        have := List.count_pos_iff.mpr hm
        omega
      intro hmem
      exact hnm (foldl_erase_subset rest (l.erase p) hmem)
    · have hq' : q ∈ rest := by
        rcases List.mem_cons.mp hq with he | hm
        · exact absurd he.symm hpq
        · exact hm
      have hc : (l.erase p).count q ≤ 1 := by
        rw [List.count_erase]
        have : (p == q) = false := by simp [hpq]
        rw [this]
        simpa using hcount
      exact ih (l.erase p) hq' hc

theorem mem_foldl_erase_of_not_mem {q : Pos} : ∀ (ps l : List Pos), q ∉ ps → q ∈ l →
    q ∈ ps.foldl (fun acc q => acc.erase q) l := by
  intro ps
  induction ps with
  | nil => intro l _ h; exact h
  | cons p rest ih =>
    intro l hq hl
    rw [List.foldl_cons]
    have hne : q ≠ p := fun he => hq (he ▸ List.mem_cons_self p rest)
    exact ih (l.erase p) (fun hm => hq (List.mem_cons_of_mem p hm))
      ((List.mem_erase_of_ne hne).mpr hl)

theorem pawnObliqueFilter_mem {w : World} {me : PlayerId} :
    ∀ {l res : List Pos}, pawnObliqueFilter w me l = .ok res → ∀ q : Pos,
    (q ∈ res ↔ q ∈ l ∧ ∃ g, w.table.get_figure q = some (some g) ∧
      World.ownerOfD w g ≠ me) := by
  intro l
  induction l with
  | nil =>
    intro res h q
    cases h
    simp
  | cons x rest ih =>
    intro res h q
    unfold pawnObliqueFilter at h
    cases hx : w.table.get_figure x with
    | none => rw [hx] at h; cases h
    | some c =>
      rw [hx] at h
      cases c with
      | none =>
        rw [ih h q]
        constructor
        · rintro ⟨hm, hg⟩
          exact ⟨List.mem_cons_of_mem x hm, hg⟩
        · rintro ⟨hm, g, hgf, hgo⟩
          rcases List.mem_cons.mp hm with he | hm2
          · subst he
            rw [hx] at hgf
            cases hgf
          · exact ⟨hm2, g, hgf, hgo⟩
      | some g0 =>
        have h2 : (if World.ownerOfD w g0 ≠ me then
            (match pawnObliqueFilter w me rest with
             | Except.error e => Except.error e
             | Except.ok l => Except.ok (x :: l))
            else pawnObliqueFilter w me rest) = Except.ok res := h
        by_cases ho : World.ownerOfD w g0 ≠ me
        · rw [if_pos ho] at h2
          cases hrest : pawnObliqueFilter w me rest with
          | error e => rw [hrest] at h2; cases h2
          | ok res0 =>
            rw [hrest] at h2
            injection h2 with hres
            subst hres
            rw [List.mem_cons, ih hrest q]
            constructor
            · rintro (he | ⟨hm, hg⟩)
              · exact ⟨by rw [he]; exact List.mem_cons_self x rest, g0,
                  by rw [he]; exact hx, ho⟩
              · exact ⟨List.mem_cons_of_mem x hm, hg⟩
            · rintro ⟨hm, g, hgf, hgo⟩
              rcases List.mem_cons.mp hm with he | hm2
              · exact Or.inl he
              · exact Or.inr ⟨hm2, g, hgf, hgo⟩
        · rw [if_neg ho] at h2
          rw [ih h2 q]
          push_neg at ho
          constructor
          · rintro ⟨hm, hg⟩
            exact ⟨List.mem_cons_of_mem x hm, hg⟩
          · rintro ⟨hm, g, hgf, hgo⟩
            rcases List.mem_cons.mp hm with he | hm2
            · subst he
              rw [hx] at hgf
              injection hgf with hg2
              injection hg2 with hg3
              exact absurd (hg3 ▸ ho) hgo
            · exact ⟨hm2, g, hgf, hgo⟩

theorem get_figure_on_board {n : Nat} {w : World} (hwf : WF n w) {q : Pos}
    (h1 : 0 ≤ q.1) (h2 : q.1 < (n : Int)) (h3 : 0 ≤ q.2) (h4 : q.2 < (n : Int)) :
    w.table.get_figure q = some (occupant w q) := by
  obtain ⟨_, _, hlen, hrl, _, _, _, _, _, _⟩ := hwf
  unfold TableData.get_figure
  have hq1 : q.1.toNat < w.table.cells.length := by omega
  have hout : pyGet w.table.cells q.1 = some w.table.cells[q.1.toNat] := by
    unfold pyGet
    rw [if_pos h1]
    exact List.getElem?_eq_getElem hq1
  rw [hout]
  set row := w.table.cells[q.1.toNat] with hrow
  have hrlen : row.length = n := hrl row (List.getElem_mem hq1)
  have hq2 : q.2.toNat < row.length := by omega
  have hin : pyGet row q.2 = some row[q.2.toNat] := by
    unfold pyGet
    rw [if_pos h3]
    exact List.getElem?_eq_getElem hq2
  show pyGet row q.2 = some (occupant w q)
  rw [hin]
  rw [occupant_eq_cellNat h1 h3]
  have hcn : cellNat w.table.cells q.1.toNat q.2.toNat = row[q.2.toNat] := by
    unfold cellNat
    rw [List.getElem?_eq_getElem hq1]
    show (row[q.2.toNat]?).join = row[q.2.toNat]
    rw [List.getElem?_eq_getElem hq2]
    rfl
  rw [hcn]

theorem pawnVal_eq_ok {w : World} {rows columns : Int} {me : PlayerId} {fm : Bool}
    {pos : Pos} {tps : List (Pos × PlayerId)} {s : Finset Pos}
    (h : pawnVal w rows columns me fm pos tps = .ok s) :
    ∃ oblique2,
      pawnObliqueFilter w me
        ((pawnOblique0 (if World.goesUpOf w me then -1 else 1) pos).filter
          (clipB rows columns)) = .ok oblique2 ∧
      s = ((tps.map (·.1)).foldl (fun acc q => acc.erase q)
          ((pawnStraight0 (if World.goesUpOf w me then -1 else 1) fm pos).filter
            (clipB rows columns))).toFinset ∪ oblique2.toFinset := by
  simp only [pawnVal] at h
  split at h
  · cases h
  · rename_i o heq
    injection h with hs
    exact ⟨o, heq, hs.symm⟩

/-! ### Outcomes of the move path -/

theorem availS_ok (n : Nat) (w : World) (i : FigId) (f : FigureData) (pos : Pos)
    (hwf : WF n w) (hf : w.figures[i]? = some f)
    (hpos : computePosition w.table i = some pos) :
    ∃ s, AvailOut w i pos s (availS w i) := by
  rw [availS_dispatch w i f hf]
  cases f.kind
  case pawn =>
    obtain ⟨s, _, hout⟩ := pawnAvailS_spec n w i f pos hwf hf hpos
    exact ⟨s, hout⟩
  case rook => exact ⟨_, rookAvailS_spec n w i f pos hwf hf hpos⟩
  case bishop => exact ⟨_, bishopAvailS_spec n w i f pos hwf hf hpos⟩
  case queen => exact ⟨_, queenAvailS_spec n w i f pos hwf hf hpos⟩
  case knight => exact ⟨_, validateMovesS_spec n w i f pos (offsetsOf .knight) hwf hf hpos⟩
  case king => exact ⟨_, validateMovesS_spec n w i f pos (offsetsOf .king) hwf hf hpos⟩

theorem figMovePlace_cases (w4 : World) (i : FigId) (dst : Pos) :
    (figMovePlace w4 i dst).1 = .ok () ∨ (figMovePlace w4 i dst).1 = .error .indexError := by
  unfold figMovePlace
  cases h : w4.table.set_figure (some i) dst with
  | none => right; rfl
  | some t2 => left; rfl

theorem figMoveClear_cases (w2 : World) (i : FigId) (dst pos : Pos) :
    (figMoveClear w2 i dst pos).1 = .ok () ∨
    (figMoveClear w2 i dst pos).1 = .error .indexError := by
  unfold figMoveClear
  cases h : w2.table.set_figure none pos with
  | none => right; rfl
  | some t1 => exact figMovePlace_cases _ i dst

theorem pawnMovePlace_cases (w2 : World) (i : FigId) (dst : Pos) :
    (pawnMovePlace w2 i dst).1 = .ok () ∨ (pawnMovePlace w2 i dst).1 = .error .indexError := by
  unfold pawnMovePlace
  cases h : w2.table.set_figure (some i) dst with
  | none => right; rfl
  | some t => left; rfl

theorem figMoveS_cases (n : Nat) (w : World) (i : FigId) (f : FigureData) (pos : Pos)
    (dst : Pos) (hwf : WF n w) (hf : w.figures[i]? = some f)
    (hpos : computePosition w.table i = some pos) :
    (figMoveS w i dst).1 = .ok () ∨ (figMoveS w i dst).1 = .error .invalidMove ∨
    (figMoveS w i dst).1 = .error .indexError := by
  obtain ⟨s, hv, hcells, hfe, f4, hf4, hf4p⟩ := availS_ok n w i f pos hwf hf hpos
  obtain ⟨r, w1, hrw⟩ : ∃ r w1, availS w i = (r, w1) := ⟨_, _, rfl⟩
  have hr2 : r = .ok s := by rw [hrw] at hv; exact hv
  subst hr2
  have hf4w : w1.figures[i]? = some f4 := by rw [hrw] at hf4; exact hf4
  have hfig : figPosS w1 i = (.ok pos, w1) := figPosS_cached w1 i f4 pos hf4w hf4p
  have heq1 : figMoveS w i dst =
      (if dst ∈ s then
        match figPosS w1 i with
        | (.error e, w2) => (.error e, w2)
        | (.ok pos2, w2) => figMoveClear w2 i dst pos2
      else
        match figPosS w1 i with
        | (.error e, w2) => (.error e, w2)
        | (.ok _, w2) => (.error .invalidMove, w2)) := by
    unfold figMoveS
    rw [hrw]
  by_cases hmem : dst ∈ s
  · rw [heq1, if_pos hmem, hfig]
    rcases figMoveClear_cases w1 i dst pos with h | h
    · left; exact h
    · right; right; exact h
  · rw [heq1, if_neg hmem, hfig]
    right; left; rfl

theorem pawnMoveS_cases (n : Nat) (w : World) (i : FigId) (f : FigureData) (pos : Pos)
    (dst : Pos) (hwf : WF n w) (hf : w.figures[i]? = some f)
    (hpos : computePosition w.table i = some pos) :
    (pawnMoveS w i dst).1 = .ok () ∨ (pawnMoveS w i dst).1 = .error .invalidMove ∨
    (pawnMoveS w i dst).1 = .error .indexError := by
  obtain ⟨r, w1, hr⟩ : ∃ r w1, figMoveS w i dst = (r, w1) := ⟨_, _, rfl⟩
  have hc := figMoveS_cases n w i f pos dst hwf hf hpos
  rw [hr] at hc
  rcases hc with h | h | h
  · have hr2 : r = .ok () := h
    subst hr2
    have heq : pawnMoveS w i dst =
        pawnMovePlace (w1.updFig i (fun g => { g with first_move := false })) i dst := by
      unfold pawnMoveS
      rw [hr]
    rw [heq]
    rcases pawnMovePlace_cases (w1.updFig i (fun g => { g with first_move := false }))
        i dst with h2 | h2
    · left; exact h2
    · right; right; exact h2
  · have hr2 : r = .error .invalidMove := h
    subst hr2
    have heq : pawnMoveS w i dst = (.error .invalidMove, w1) := by
      unfold pawnMoveS
      rw [hr]
    rw [heq]
    right; left; rfl
  · have hr2 : r = .error .indexError := h
    subst hr2
    have heq : pawnMoveS w i dst = (.error .indexError, w1) := by
      unfold pawnMoveS
      rw [hr]
    rw [heq]
    right; right; rfl

theorem moveS_cases (n : Nat) (w : World) (i : FigId) (f : FigureData) (pos : Pos)
    (dst : Pos) (hwf : WF n w) (hf : w.figures[i]? = some f)
    (hpos : computePosition w.table i = some pos) :
    (moveS w i dst).1 = .ok () ∨ (moveS w i dst).1 = .error .invalidMove ∨
    (moveS w i dst).1 = .error .indexError := by
  unfold moveS
  rw [kindOf_eq w i f hf]
  cases f.kind
  case pawn => exact pawnMoveS_cases n w i f pos dst hwf hf hpos
  all_goals exact figMoveS_cases n w i f pos dst hwf hf hpos

theorem playerMoveS_eq_missing {w : World} {frm : Pos} (p : PlayerId) (dst : Pos)
    (h : w.table.get_figure frm = some none) :
    playerMoveS w p frm dst = playerMissingBody w p := by
  unfold playerMoveS
  rw [h]

theorem playerMoveS_eq_fig {w : World} {frm : Pos} {g : FigId} (p : PlayerId) (dst : Pos)
    (h : w.table.get_figure frm = some (some g)) :
    playerMoveS w p frm dst =
      (if World.ownerOfD w g = p then moveS w g dst else (.error .accessError, w)) := by
  unfold playerMoveS
  rw [h]

theorem playerMissingBody_spec (n : Nat) (w : World) (p : PlayerId) (hwf : WF n w) :
    (playerMissingBody w p).1 = .error .missingFigure := by
  obtain ⟨hrw, hcl, hlen, hrl, hvalid, huniq, hposC, hmovC, htbl, hplC⟩ := hwf
  have hbind : (w.players[p]?).bind (fun pl => pl.figCache) = none := by
    cases hp : w.players[p]? with
    | none => rfl
    | some pl =>
      have : pl.figCache = none := hplC pl (mem_of_getElem?_some hp)
      simp [this]
  obtain ⟨figs, w1, hts⟩ : ∃ a b, tableFiguresS w = (a, b) := ⟨_, _, rfl⟩
  have hspec := tableFiguresS_spec w (Or.inl htbl)
  have h1 : figs = tableFiguresList w.table := by
    have := hspec.1; rw [hts] at this; exact this
  have h2 : w1.table.cells = w.table.cells := by
    have := hspec.2.1; rw [hts] at this; exact this
  have h5 : w1.figures = w.figures := by
    have := hspec.2.2.2.2.1; rw [hts] at this; exact this
  have hpf : playerFiguresS w p =
      (figs.filter (fun g => decide (World.ownerOfD w1 g = p)), w1) := by
    unfold playerFiguresS
    rw [hbind, hts]
  have hmemt : ∀ g ∈ figs.filter (fun g => decide (World.ownerOfD w1 g = p)),
      g ∈ tableFiguresList w.table := by
    intro g hg
    exact h1 ▸ List.mem_of_mem_filter hg
  have hcohL : ∀ g ∈ figs.filter (fun g => decide (World.ownerOfD w1 g = p)),
      ∃ fg, w1.figures[g]? = some fg ∧
        (fg.posCache = none ∨ fg.posCache = computePosition w1.table g) := by
    intro g hg
    have hlt : g < w.figures.length := hvalid g (hmemt g hg)
    refine ⟨w.figures[g], by rw [h5]; exact List.getElem?_eq_getElem hlt, ?_⟩
    exact Or.inl (hposC _ (List.getElem_mem hlt))
  have hsomeL : ∀ g ∈ figs.filter (fun g => decide (World.ownerOfD w1 g = p)),
      (computePosition w1.table g).isSome := by
    intro g hg
    rw [computePosition_congr h2]
    exact computePosition_isSome_of_mem (hmemt g hg)
  obtain ⟨hv, _, _, _⟩ := positionsS_spec
    (figs.filter (fun g => decide (World.ownerOfD w1 g = p))) w1 hcohL hsomeL
  obtain ⟨r2, w2, hps⟩ : ∃ r w2,
      positionsS w1 (figs.filter (fun g => decide (World.ownerOfD w1 g = p))) = (r, w2) :=
    ⟨_, _, rfl⟩
  have hr2 : r2 = .ok ((figs.filter (fun g => decide (World.ownerOfD w1 g = p))).map
      (posD w1.table)) := by
    rw [hps] at hv; exact hv
  subst hr2
  have hstage : playerMissingBody w p =
      (match positionsS w1 (figs.filter (fun g => decide (World.ownerOfD w1 g = p))) with
       | (.error e, w2) => (.error e, w2)
       | (.ok _, w2) => (.error .missingFigure, w2)) := by
    unfold playerMissingBody
    rw [hpf]
  rw [hstage, hps]

/-! ### Claims -/

/-- C2: for a Rook with the only pieces on one of its rays being an opponent
piece at distance 3 and a friendly piece at distance 5 (closer squares
empty), the legal-move set restricted to that ray is exactly the squares at
distances 1, 2 and 3 — verified on both scan directions (`cut_after` on the
right ray with the opponent first in scan order, `cut_before` on the left
ray with the friendly piece first in scan order). -/
theorem claim_C2_ray_truncation :
    (movesOf rookW1 0).map (fun s => s ∩ rayRight) =
      some {((3 : Int), (2 : Int)), (3, 3), (3, 4)} ∧
    (movesOf rookW2 0).map (fun s => s ∩ rayLeft) =
      some {((3 : Int), (3 : Int)), (3, 4), (3, 5)} := by decide

/-- C3: for every Knight and King and every offset of its fixed table, the
offset destination is in the legal-move set iff both coordinates lie in the
inclusive range [0, rows] × [0, columns] and the destination square is
empty or held by an opponent piece; nothing else about the board occupancy
enters the condition (so adjacent friendly pieces never block a leaper). -/
theorem claim_C3_leaper_offsets (n : Nat) (w : World) (i : FigId) (f : FigureData)
    (pos o : Pos) (hwf : WF n w) (hf : w.figures[i]? = some f)
    (hk : f.kind = .knight ∨ f.kind = .king)
    (hpos : computePosition w.table i = some pos)
    (ho : o ∈ offsetsOf f.kind) :
    ∃ s, movesOf w i = some s ∧
      ((pos.1 + o.1, pos.2 + o.2) ∈ s ↔
        ((0 ≤ pos.1 + o.1 ∧ pos.1 + o.1 ≤ (n : Int)) ∧
         (0 ≤ pos.2 + o.2 ∧ pos.2 + o.2 ≤ (n : Int))) ∧
        (occupant w (pos.1 + o.1, pos.2 + o.2) = none ∨
         ∃ g, occupant w (pos.1 + o.1, pos.2 + o.2) = some g ∧
           World.ownerOfD w g ≠ f.player)) := by
  refine ⟨_, movesOf_leaper n w i f pos hwf hf hk hpos, ?_⟩
  rw [mem_validateVal]
  constructor
  · rintro ⟨o', ho', he, hb1, hb2, hocc⟩
    refine ⟨⟨hb1, hb2⟩, ?_⟩
    rcases hocc with hn | ⟨x, hs, hx⟩
    · exact Or.inl ((find_tps_none_iff hwf _).mp hn)
    · obtain ⟨g, hog, hxo⟩ := find_tps_some hwf hs
      exact Or.inr ⟨g, hog, fun hc => hx (hxo.trans hc).symm⟩
  · rintro ⟨⟨hb1, hb2⟩, hocc⟩
    refine ⟨o, ho, rfl, hb1, hb2, ?_⟩
    rcases hocc with hn | ⟨g, hog, hgo⟩
    · exact Or.inl ((find_tps_none_iff hwf _).mpr hn)
    · cases hfind : (tpsOf w).find?
          (fun y => decide (y.1 = ((pos.1 + o.1, pos.2 + o.2) : Pos))) with
      | none =>
        exfalso
        rw [(find_tps_none_iff hwf _).mp hfind] at hog
        cases hog
      | some x =>
        obtain ⟨g', hog', hxo⟩ := find_tps_some hwf hfind
        have hgg : g' = g := by
          rw [hog] at hog'
          exact (Option.some.inj hog').symm
        refine Or.inr ⟨x, rfl, fun hc => hgo ?_⟩
        rw [← hgg, ← hxo, ← hc]

/-- Witness for C3: a knight surrounded on all 8 adjacent squares by
friendly pawns still reaches an L-shaped destination. -/
theorem claim_C3_leaper_offsets_witness :
    ∃ s, movesOf surroundW 0 = some s ∧ ((3 : Int) + 2, (3 : Int) + 1) ∈ s := by
  obtain ⟨s, hs, hiff⟩ := claim_C3_leaper_offsets 8 surroundW 0
    { kind := .knight, player := 0, posCache := none, movesCache := none, first_move := true }
    (3, 3) (2, 1) (by decide) (by decide) (Or.inl rfl) (by decide) (by decide)
  exact ⟨s, hs, hiff.mpr (by decide)⟩

/-- C5: the scenario pawn (alone on an empty board, away from the edges,
first_move still true) has exactly the 2 straight forward destinations and
no oblique ones; after its successful two-step move first_move is false,
the set has exactly the 1 straight destination, and both facts persist
through a repeated query and through a further move. -/
theorem claim_C5_pawn_asymmetry :
    movesOf pawnW 0 = some {((5 : Int), (4 : Int)), (4, 4)} ∧
    (movesOf pawnW 0).map Finset.card = some 2 ∧
    (moveS pawnW 0 (4, 4)).1 = .ok () ∧
    (pawnW1.figures[0]?).map (·.first_move) = some false ∧
    movesOf pawnW1 0 = some {((3 : Int), (4 : Int))} ∧
    (pawnW2.figures[0]?).map (·.first_move) = some false ∧
    movesOf pawnW2 0 = some {((3 : Int), (4 : Int))} ∧
    (moveS pawnW2 0 (3, 4)).1 = .ok () ∧
    (pawnW3.figures[0]?).map (·.first_move) = some false ∧
    movesOf pawnW3 0 = some {((2 : Int), (4 : Int))} := by decide

/-- C6: for a Queen, the reported legal-move set equals the union of what
the same figure would report were its class Rook and were its class Bishop
(same board, same owner, same position). -/
theorem claim_C6_queen_union (n : Nat) (w : World) (i : FigId) (f : FigureData) (pos : Pos)
    (hwf : WF n w) (hf : w.figures[i]? = some f) (hk : f.kind = .queen)
    (hpos : computePosition w.table i = some pos) :
    ∃ sq sr sb, movesOf w i = some sq ∧
      movesOf (w.setKind i .rook) i = some sr ∧
      movesOf (w.setKind i .bishop) i = some sb ∧
      sq = sr ∪ sb := by
  have hq := movesOf_queen n w i f pos hwf hf hk hpos
  have hcr : (w.setKind i .rook).table.cells = w.table.cells := by rw [setKind_table]
  have hcb : (w.setKind i .bishop).table.cells = w.table.cells := by rw [setKind_table]
  have htps_r : tpsOf (w.setKind i .rook) = tpsOf w := by
    unfold tpsOf
    rw [tableFiguresList_congr hcr]
    apply List.map_congr_left
    intro g _
    rw [posD_congr hcr, (setKind_fieldsEq_agree w i .rook).2 g]
  have htps_b : tpsOf (w.setKind i .bishop) = tpsOf w := by
    unfold tpsOf
    rw [tableFiguresList_congr hcb]
    apply List.map_congr_left
    intro g _
    rw [posD_congr hcb, (setKind_fieldsEq_agree w i .bishop).2 g]
  have hposr : computePosition (w.setKind i .rook).table i = some pos := by
    rw [computePosition_congr hcr]
    exact hpos
  have hposb : computePosition (w.setKind i .bishop).table i = some pos := by
    rw [computePosition_congr hcb]
    exact hpos
  have hr := movesOf_rook n (w.setKind i .rook) i { f with kind := .rook } pos
    (WF_setKind n w i .rook hwf) (setKind_getElem_self w i .rook f hf) rfl hposr
  have hb := movesOf_bishop n (w.setKind i .bishop) i { f with kind := .bishop } pos
    (WF_setKind n w i .bishop hwf) (setKind_getElem_self w i .bishop f hf) rfl hposb
  rw [htps_r] at hr
  rw [htps_b] at hb
  exact ⟨_, _, _, hq, hr, hb, rfl⟩

/-- Witness for C6: the queen of the scenario board. -/
theorem claim_C6_queen_union_witness :
    ∃ sq sr sb, movesOf queenW 0 = some sq ∧
      movesOf (queenW.setKind 0 .rook) 0 = some sr ∧
      movesOf (queenW.setKind 0 .bishop) 0 = some sb ∧
      sq = sr ∪ sb :=
  claim_C6_queen_union 8 queenW 0
    { kind := .queen, player := 0, posCache := none, movesCache := none, first_move := true }
    (3, 3) (by decide) (by decide) rfl (by decide)

/-- C8: Table.__init__ swaps the extents: `Table(rows = 2, columns = 3)`
yields a grid of 3 rows of 2 cells each (every cell empty), while its
stored attributes still claim 2 rows and 3 columns, and in general the grid
has `columns` rows of `rows` cells. -/
theorem claim_C8_init_swapped :
    (TableData.init 2 3).rows = 2 ∧ (TableData.init 2 3).columns = 3 ∧
    (TableData.init 2 3).cells.length = 3 ∧
    (∀ row ∈ (TableData.init 2 3).cells, row.length = 2) ∧
    (∀ row ∈ (TableData.init 2 3).cells, ∀ c ∈ row, c = none) ∧
    (∀ r c : Nat, (TableData.init r c).cells.length = c ∧
      ∀ row ∈ (TableData.init r c).cells, row.length = r) := by
  refine ⟨by decide, by decide, by decide, by decide, by decide, ?_⟩
  intro r c
  constructor
  · simp [TableData.init]
  · intro row hrow
    have hr2 : row = List.replicate r none :=
      List.eq_of_mem_replicate (by simpa [TableData.init] using hrow)
    rw [hr2, List.length_replicate]

/-- C9: the Figure.player setter re-invokes itself, so Player.add_figure
never returns normally for any recursion limit: it always exhausts the fuel
with a RecursionError and never produces an updated state. -/
theorem claim_C9_player_setter_diverges :
    ∀ (fuel : Nat) (w : World) (p : PlayerId) (i : FigId),
      add_figure fuel w p i = .error .recursionError := by
  intro fuel w p i
  induction fuel with
  | zero => rfl
  | succ k ih => exact ih

/-- C10: pawn edge clipping keeps negative coordinates: a White pawn on row
0 of an otherwise empty board (any column) reports the off-board square
(-1, col) as a legal destination. -/
theorem claim_C10_negative_not_clipped :
    ∀ col : Fin 8, (movesOf (p0World (col : Int)) 0).isSome ∧
      ((-1 : Int), (col : Int)) ∈ (movesOf (p0World (col : Int)) 0).getD ∅ := by decide

/-- C1: a failing move request can leave the board mutated.  The king at
(7,7) accepts destination (8,7) (the leaper bound check is inclusive at
`rows`), Figure.move clears the origin cell, and the subsequent
`set_figure` raises IndexError: after the failed call the king is on no
cell at all. -/
theorem claim_C1_partial_mutation :
    (moveS kingW 0 (8, 7)).1 = .error .indexError ∧
    (moveS kingW 0 (8, 7)).2.table.cells ≠ kingW.table.cells ∧
    tableFiguresList (moveS kingW 0 (8, 7)).2.table = [] ∧
    tableFiguresList kingW.table = [0] := by decide

/-- C4 counterexample: a forward-diagonal square that is not on the board
(hence occupied by nothing) is reported as a legal pawn destination, because
the oblique occupancy check indexes the grid with a negative row index and
Python wraps it around to the last row, where an opponent stands. -/
theorem claim_C4_wraparound_cex :
    (movesOf wrapW 0).isSome ∧
    ((-1 : Int), (4 : Int)) ∈ (movesOf wrapW 0).getD ∅ ∧
    occupant wrapW (-1, 4) = none := by decide

/-- C4 amended: for every pawn, an on-board forward-diagonal square is in
its legal-move set iff it is occupied by an opponent piece, and a square
straight ahead (same column) occupied by any piece is never in the set; the
original claim's iff fails only for off-board diagonal squares, through the
wrap-around of `claim_C4_wraparound_cex`. -/
theorem claim_C4_pawn_amended (n : Nat) (w : World) (i : FigId) (f : FigureData)
    (pos : Pos) (hwf : WF n w) (hf : w.figures[i]? = some f) (hk : f.kind = .pawn)
    (hpos : computePosition w.table i = some pos) :
    ∃ s, movesOf w i = some s ∧
      (∀ e : Int, (e = 1 ∨ e = -1) → ∀ d : Pos,
        d = (pos.1 + pawnDir w f.player, pos.2 + e) →
        0 ≤ d.1 → d.1 < (n : Int) → 0 ≤ d.2 → d.2 < (n : Int) →
        (d ∈ s ↔ ∃ g, occupant w d = some g ∧ World.ownerOfD w g ≠ f.player)) ∧
      (∀ q : Pos, (occupant w q).isSome → q.2 = pos.2 → q ∉ s) := by
  obtain ⟨s, hsval, hmov⟩ := movesOf_pawn n w i f pos hwf hf hk hpos
  obtain ⟨oblique2, hobl, hseq⟩ := pawnVal_eq_ok hsval
  set dir := (if World.goesUpOf w f.player then (-1 : Int) else 1) with hdirdef
  have hdir : pawnDir w f.player = dir := rfl
  have hdpm : dir = -1 ∨ dir = 1 := by
    rw [hdirdef]
    by_cases hup : World.goesUpOf w f.player
    · simp [hup]
    · simp [hup]
  set straight1 := (pawnStraight0 dir f.first_move pos).filter
    (clipB (n : Int) (n : Int)) with hs1def
  have hstraight_col : ∀ x ∈ straight1, x.2 = pos.2 := by
    intro x hx
    have hx0 : x ∈ pawnStraight0 dir f.first_move pos := (List.mem_filter.mp hx).1
    unfold pawnStraight0 at hx0
    rcases List.mem_cons.mp hx0 with he | hm
    · rw [he]
    · split at hm
      · simp at hm
        rw [hm]
      · simp at hm
  refine ⟨s, hmov, ?_, ?_⟩
  · intro e he d hd hd1 hd2 hd3 hd4
    have hdcol : d.2 = pos.2 + e := by rw [hd]
    have hdne : d.2 ≠ pos.2 := by rcases he with he | he <;> omega
    rw [hseq, Finset.mem_union, List.mem_toFinset, List.mem_toFinset]
    have hnotstraight : d ∉ ((tpsOf w).map (·.1)).foldl (fun acc q => acc.erase q)
        straight1 := fun hmem =>
      hdne (hstraight_col d (foldl_erase_subset _ straight1 hmem))
    have hiff := pawnObliqueFilter_mem hobl d
    have hgfb := get_figure_on_board hwf hd1 hd2 hd3 hd4
    constructor
    · rintro (hstr | hob)
      · exact absurd hstr hnotstraight
      · obtain ⟨hm1, g, hgf, hgo⟩ := hiff.mp hob
        rw [hgfb] at hgf
        injection hgf with hocc
        exact ⟨g, hocc, hgo⟩
    · rintro ⟨g, hog, hgo⟩
      right
      apply hiff.mpr
      refine ⟨List.mem_filter.mpr ⟨?_, ?_⟩, g, ?_, hgo⟩
      · unfold pawnOblique0
        rcases he with he | he
        · subst he
          rw [hd, hdir]
          exact List.mem_cons_self _ _
        · subst he
          rw [hd, hdir]
          exact List.mem_cons_of_mem _ (List.mem_cons_self _ _)
      · unfold clipB
        simp only [Bool.and_eq_true, decide_eq_true_eq]
        exact ⟨hd2, hd4⟩
      · rw [hgfb, hog]
  · intro q hqocc hqcol
    rw [hseq, Finset.mem_union, List.mem_toFinset, List.mem_toFinset]
    rintro (hstr | hob)
    · obtain ⟨g, hog⟩ := Option.isSome_iff_exists.mp hqocc
      obtain ⟨hmem, hcp⟩ := computePosition_of_occupant hwf hog
      have hqps : q ∈ (tpsOf w).map (·.1) := by
        unfold tpsOf
        rw [List.map_map]
        apply List.mem_map.mpr
        refine ⟨g, hmem, ?_⟩
        simp only [Function.comp]
        exact (posD_eq_iff hwf hmem).mpr hcp
      have hnodup : straight1.Nodup := by
        apply List.Nodup.filter
        unfold pawnStraight0
        split
        · rw [List.nodup_cons]
          refine ⟨?_, by simp⟩
          simp only [List.mem_singleton, Prod.mk.injEq, not_and]
          intro hc
          exfalso
          rcases hdpm with h | h <;> omega
        · simp
      have hcount : straight1.count q ≤ 1 := count_le_one_of_nodup hnodup q
      exact not_mem_foldl_erase _ straight1 hqps hcount hstr
    · obtain ⟨hm1, _⟩ := (pawnObliqueFilter_mem hobl q).mp hob
      have hm0 : q ∈ pawnOblique0 dir pos := (List.mem_filter.mp hm1).1
      unfold pawnOblique0 at hm0
      rcases List.mem_cons.mp hm0 with he | hm2
      · rw [he] at hqcol
        simp at hqcol
      · rcases List.mem_cons.mp hm2 with he | he
        · rw [he] at hqcol
          simp at hqcol
        · simp at he

/-- Witness for the amended C4: the scenario pawn at (4,4) may capture the
Black piece on its forward-right diagonal. -/
theorem claim_C4_pawn_amended_witness :
    ∃ s, movesOf pawnCapW 0 = some s ∧ ((3 : Int), (5 : Int)) ∈ s := by
  obtain ⟨s, hm, hiff, _⟩ := claim_C4_pawn_amended 8 pawnCapW 0
    { kind := .pawn, player := 0, posCache := none, movesCache := none, first_move := true }
    (4, 4) (by decide) (by decide) rfl (by decide)
  refine ⟨s, hm, ?_⟩
  have hinst := hiff 1 (Or.inl rfl) ((3 : Int), (5 : Int)) (by decide)
    (by decide) (by decide) (by decide) (by decide)
  exact hinst.mpr ⟨1, by decide, by decide⟩

/-- C7: for every player and valid source and destination coordinates, the
player's move request fails with `MissingFigure` iff the source square holds
no piece, fails with `AccessError` iff the source square holds a piece of
another player, and otherwise delegates to that piece's own move operation
(whose outcome is success, `InvalidMove` or `IndexError`, never the two
player-level errors). -/
theorem claim_C7_player_move (n : Nat) (w : World) (p : PlayerId) (frm dst : Pos)
    (hwf : WF n w)
    (h1 : 0 ≤ frm.1) (h2 : frm.1 < (n : Int)) (h3 : 0 ≤ frm.2) (h4 : frm.2 < (n : Int)) :
    ((playerMoveS w p frm dst).1 = .error .missingFigure ↔ occupant w frm = none) ∧
    ((playerMoveS w p frm dst).1 = .error .accessError ↔
      ∃ g, occupant w frm = some g ∧ World.ownerOfD w g ≠ p) ∧
    (∀ g, occupant w frm = some g → World.ownerOfD w g = p →
      playerMoveS w p frm dst = moveS w g dst) := by
  have hgf := get_figure_on_board hwf h1 h2 h3 h4
  cases ho : occupant w frm with
  | none =>
    have hge : w.table.get_figure frm = some none := by rw [hgf, ho]
    have hpm := playerMoveS_eq_missing p dst hge
    have hmb := playerMissingBody_spec n w p hwf
    refine ⟨?_, ?_, ?_⟩
    · exact ⟨fun _ => rfl, fun _ => by rw [hpm]; exact hmb⟩
    · constructor
      · intro hacc
        rw [hpm] at hacc
        rw [hmb] at hacc
        cases hacc
      · rintro ⟨g, hg, _⟩
        cases hg
    · intro g hg _
      cases hg
  | some g =>
    have hge : w.table.get_figure frm = some (some g) := by rw [hgf, ho]
    obtain ⟨hmem, hcp⟩ := computePosition_of_occupant hwf ho
    have hlt := hwf.2.2.2.2.1 g hmem
    have hfsome : w.figures[g]? = some w.figures[g] := List.getElem?_eq_getElem hlt
    by_cases hown : World.ownerOfD w g = p
    · have hpm : playerMoveS w p frm dst = moveS w g dst := by
        rw [playerMoveS_eq_fig p dst hge, if_pos hown]
      have hmc := moveS_cases n w g (w.figures[g]) frm dst hwf hfsome hcp
      refine ⟨?_, ?_, ?_⟩
      · constructor
        · intro hmiss
          rw [hpm] at hmiss
          rcases hmc with h | h | h <;> rw [h] at hmiss <;> simp at hmiss
        · intro hocc
          exact Option.noConfusion hocc
      · constructor
        · intro hacc
          rw [hpm] at hacc
          rcases hmc with h | h | h <;> rw [h] at hacc <;> simp at hacc
        · rintro ⟨g2, hg2, hne⟩
          injection hg2 with he
          exact absurd (he ▸ hown) hne
      · intro g2 hg2 _
        injection hg2 with he
        rw [← he]
        exact hpm
    · have hpm : playerMoveS w p frm dst = (.error .accessError, w) := by
        rw [playerMoveS_eq_fig p dst hge, if_neg hown]
      refine ⟨?_, ?_, ?_⟩
      · constructor
        · intro hmiss
          rw [hpm] at hmiss
          cases hmiss
        · intro hocc
          exact Option.noConfusion hocc
      · exact ⟨fun _ => ⟨g, rfl, hown⟩, fun _ => by rw [hpm]⟩
      · intro g2 hg2 hop
        injection hg2 with he
        subst he
        exact absurd hop hown

/-- Witness for C7 at the board `rookW1` (White rook at (3,1), Black pawn at
(3,4), White pawn at (3,6)): the empty square (5,5) gives `MissingFigure`,
the Black-held square (3,4) gives `AccessError`, and a request from the
rook's own square delegates to the rook's move. -/
theorem claim_C7_player_move_witness :
    ((playerMoveS rookW1 0 (5, 5) (4, 5)).1 = .error .missingFigure ↔
      occupant rookW1 (5, 5) = none) ∧
    ((playerMoveS rookW1 0 (3, 4) (4, 4)).1 = .error .accessError ↔
      ∃ g, occupant rookW1 (3, 4) = some g ∧ World.ownerOfD rookW1 g ≠ 0) ∧
    (∀ g, occupant rookW1 (3, 1) = some g → World.ownerOfD rookW1 g = 0 →
      playerMoveS rookW1 0 (3, 1) (3, 2) = moveS rookW1 g (3, 2)) :=
  ⟨(claim_C7_player_move 8 rookW1 0 (5, 5) (4, 5) (by decide)
      (by decide) (by decide) (by decide) (by decide)).1,
   (claim_C7_player_move 8 rookW1 0 (3, 4) (4, 4) (by decide)
      (by decide) (by decide) (by decide) (by decide)).2.1,
   (claim_C7_player_move 8 rookW1 0 (3, 1) (3, 2) (by decide)
      (by decide) (by decide) (by decide) (by decide)).2.2⟩

end ConsoleChess
